import Mathlib

/-!
# Verification of the Reveal.js-to-PPTX conversion engine

A shallow embedding of `convert_to_ppt.py`: text normalization
(`clean_text`), color parsing (`hex_to_rgb`), image path resolution
(`find_images_in_section`), image geometry (`get_image_size`), the
slide-content classifier and the hook / dashboard / class-imbalance
template logic of `process_slide_content`, and the deck assembler
(`create_pptx_from_slides`).  Machine-level details (EMU integers,
float rounding) are modelled over `ℚ`; Python strings are modelled
as `String` / `List Char` (Python indexing and slicing are
character-based).
-/

namespace PPT

/-! ## Character-level string helpers (Python semantics) -/

/-- The set of characters Python's `str.split()` / `str.strip()` treat as
whitespace (Unicode whitespace). -/
def pyIsSpace (c : Char) : Bool :=
  let n := c.toNat
  (9 ≤ n && n ≤ 13) || (28 ≤ n && n ≤ 32) || n == 133 || n == 160 ||
    n == 5760 || (8192 ≤ n && n ≤ 8202) || n == 8232 || n == 8233 ||
    n == 8239 || n == 8287 || n == 12288

/-- Test that `pat` is a prefix of `l` (Python `str.startswith`). -/
def startsWithL : List Char → List Char → Bool
  | _, [] => true
  | [], _ :: _ => false
  | c :: cs, p :: ps => c == p && startsWithL cs ps

/-- Test that `pat` occurs as a contiguous substring of `l`
(Python's `pat in l`). -/
def containsL : List Char → List Char → Bool
  | [], pat => pat.isEmpty
  | c :: cs, pat => startsWithL (c :: cs) pat || containsL cs pat

/-- Python `pat in s` on strings. -/
def strContains (s pat : String) : Bool :=
  containsL s.data pat.data

/-- Python `s.startswith(pat)`. -/
def strStartsWith (s pat : String) : Bool :=
  startsWithL s.data pat.data

/-- Python `str.lower()` (only ASCII letters matter to the source's checks). -/
def pyLower (s : String) : String :=
  ⟨s.data.map Char.toLower⟩

/-- Python `str.strip()` on a character list: drop whitespace from both ends. -/
def stripL (l : List Char) : List Char :=
  (l.dropWhile pyIsSpace).rdropWhile pyIsSpace

/-- Python `str.split()` (no argument): split on runs of whitespace,
discarding empty fields. -/
def splitWs : List Char → List (List Char)
  | [] => []
  | c :: cs =>
    if pyIsSpace c then splitWs cs
    else
      match cs with
      | [] => [[c]]
      | c2 :: _ =>
        if pyIsSpace c2 then [c] :: splitWs cs
        else
          match splitWs cs with
          | [] => [[c]]
          | w :: ws => (c :: w) :: ws

/-- Python `' '.join(words)` on character lists. -/
def joinWords : List (List Char) → List Char
  | [] => []
  | [w] => w
  | w :: ws => w ++ ' ' :: joinWords ws

/-- The character class of the `re.sub(r'[…]', '', text)` call in
`clean_text`: the literal (mojibake) characters appearing in the source's
regular expression. -/
def denyChars : List Char :=
  ['ð', 'Ÿ', '†', 'â', 'š', ' ', 'ï', '¸', '”', '’', '¡', 'Œ', '“', 'Š']

/-- The `re.sub` deletion: remove every character of the denylist. -/
def removeDeny (l : List Char) : List Char :=
  l.filter (fun c => !denyChars.contains c)

/-- The body of `clean_text` on character lists: `' '.join(text.split())`, then the
regex deletion, then `.strip()`. -/
def cleanTextL (l : List Char) : List Char :=
  stripL (removeDeny (joinWords (splitWs l)))

/-- Function `clean_text` from `convert_to_ppt.py` (an empty input yields `""`,
exactly as the pipeline does). -/
def clean_text (s : String) : String :=
  ⟨cleanTextL s.data⟩

/-- No two adjacent whitespace characters. -/
def noWsRun : List Char → Bool
  | [] => true
  | [_] => true
  | c1 :: c2 :: rest => !(pyIsSpace c1 && pyIsSpace c2) && noWsRun (c2 :: rest)

/-- Neither the first nor the last character is whitespace. -/
def noEdgeWs (l : List Char) : Prop :=
  (∀ c, l.head? = some c → pyIsSpace c = false) ∧
  (∀ c, l.getLast? = some c → pyIsSpace c = false)

/-! ## `hex_to_rgb` -/

/-- Value of a single hexadecimal digit, if `c` is one (the digits accepted
by Python's `int(_, 16)`). -/
def hexDigit? (c : Char) : Option Nat :=
  let n := c.toNat
  if 48 ≤ n ∧ n ≤ 57 then some (n - 48)
  else if 97 ≤ n ∧ n ≤ 102 then some (n - 87)
  else if 65 ≤ n ∧ n ≤ 70 then some (n - 55)
  else none

/-- Accumulate hexadecimal digits; fails on any non-digit. -/
def hexDigitsAux : List Char → Nat → Option Nat
  | [], acc => some acc
  | c :: cs, acc =>
    match hexDigit? c with
    | none => none
    | some d => hexDigitsAux cs (16 * acc + d)

/-- A non-empty all-hex-digit string's value. -/
def hexDigits? : List Char → Option Nat
  | [] => none
  | c :: cs => hexDigitsAux (c :: cs) 0

/-- Python `int(s, 16)` (on the short slices `hex_to_rgb` produces):
surrounding whitespace is ignored and a single leading sign is accepted,
so `int('-f', 16) = -15`. -/
def pyIntHex? (l : List Char) : Option Int :=
  match stripL l with
  | [] => none
  | c :: rest =>
    if c = '-' then
      match hexDigits? rest with
      | some m => some (-(m : Int))
      | none => none
    else if c = '+' then
      match hexDigits? rest with
      | some m => some ((m : Int))
      | none => none
    else
      match hexDigits? (c :: rest) with
      | some m => some ((m : Int))
      | none => none

/-- The three two-character slices `hex_color[0:2]`, `[2:4]`, `[4:6]`,
each parsed with `int(_, 16)`; `none` if any parse raises. -/
def hexTriple? (l : List Char) : Option (Int × Int × Int) :=
  match pyIntHex? ((l.drop 0).take 2), pyIntHex? ((l.drop 2).take 2),
      pyIntHex? ((l.drop 4).take 2) with
  | some r, some g, some b => some (r, g, b)
  | _, _, _ => none

/-- Strip the leading `#` run (`lstrip('#')`) and expand a 3-character
remainder by doubling each character. -/
def expandShorthand (s : String) : List Char :=
  let l0 := s.data.dropWhile (· == '#')
  if l0.length = 3 then l0.flatMap (fun c => [c, c]) else l0

/-- Function `hex_to_rgb` from `convert_to_ppt.py`.  Here `none` models Python `None`;
falsy / `'none'` inputs, and any input on which a slice parse raises,
yield white `(255, 255, 255)`.  A leading run of `#` is stripped
(`lstrip('#')`), and a 3-character remainder has each character doubled. -/
def hex_to_rgb (hexColor : Option String) : Int × Int × Int :=
  match hexColor with
  | none => (255, 255, 255)
  | some s =>
    if s = "" ∨ s = "none" then (255, 255, 255)
    else
      match hexTriple? (expandShorthand s) with
      | some rgb => rgb
      | none => (255, 255, 255)

/-! ## `get_image_size` -/

/-- Function `get_image_size` from `convert_to_ppt.py`, success path: native pixel
size `pw × ph` at `dpi` dots per inch, a bounding box `maxW × maxH` in
inches.  If the natural physical size exceeds the box in either
dimension, scale by aspect ratio: landscape images are fit to the box
width, others to the box height. -/
def get_image_size (pw ph dpi : ℕ) (maxW maxH : ℚ) : ℚ × ℚ :=
  let aspect : ℚ := (pw : ℚ) / (ph : ℚ)
  let w : ℚ := (pw : ℚ) / (dpi : ℚ)
  let h : ℚ := (ph : ℚ) / (dpi : ℚ)
  if maxW < w ∨ maxH < h then
    if 1 < aspect then (maxW, maxW / aspect)
    else (maxH * aspect, maxH)
  else (w, h)

/-- Metadata the `PIL.Image.open` call reads: pixel dimensions and DPI
(the source substitutes 96 when the file carries none). -/
structure ImgMeta where
  pw : ℕ
  ph : ℕ
  dpi : ℕ
deriving DecidableEq, Repr

/-- Function `get_image_size` including its `except` branch: an unreadable image
(`none`) yields the fixed default `(Inches(6), Inches(4))` instead of
propagating the exception. -/
def get_image_size_safe (meta : Option ImgMeta) (maxW maxH : ℚ) : ℚ × ℚ :=
  match meta with
  | none => (6, 4)
  | some m => get_image_size m.pw m.ph m.dpi maxW maxH

/-! ## Image path resolution (`find_images_in_section`) -/

/-- POSIX `os.path.isabs`. -/
def isAbs (p : String) : Bool :=
  strStartsWith p "/"

/-- POSIX `os.path.join` for the two-argument uses in the source. -/
def pathJoin (a b : String) : String :=
  if isAbs b then b
  else if a = "" then b
  else if a.data.getLast? = some '/' then a ++ b
  else a ++ "/" ++ b

/-- Structural worker for `replaceAllL`, fuelled by the input length. -/
def replaceAux (rep pat : List Char) : Nat → List Char → List Char
  | 0, l => l
  | _ + 1, [] => []
  | n + 1, c :: cs =>
    if startsWithL (c :: cs) pat then
      rep ++ replaceAux rep pat n ((c :: cs).drop pat.length)
    else c :: replaceAux rep pat n cs

/-- Python `str.replace`: every non-overlapping occurrence, left to right. -/
def replaceAll (s pat rep : String) : String :=
  if pat.data = [] then s
  else ⟨replaceAux rep.data pat.data s.data.length s.data⟩

/-- The characters after the last `/` (POSIX `os.path.basename`). -/
def basename (p : String) : String :=
  ⟨p.data.foldl (fun acc c => if c = '/' then [] else acc ++ [c]) []⟩

/-- The single candidate path the source builds from the syntactic form of
`src` before any existence check: prefix `images/` or `/images/` rewritten
under the asset root, else an absolute path taken as-is, else a naive
join. -/
def primaryCandidate (imagesDir src : String) : String :=
  if strStartsWith src "images/" then
    pathJoin imagesDir (replaceAll src "images/" "")
  else if strStartsWith src "/images/" then
    pathJoin imagesDir (replaceAll src "/images/" "")
  else if isAbs src then src
  else pathJoin imagesDir src

/-- The per-image path logic of `find_images_in_section`: build the
primary candidate, fall back to the basename joined to the asset root if
the primary does not exist, and keep the image only if the final
candidate exists (`fs` is the file-existence state of the disk). -/
def find_image_path (fs : String → Bool) (imagesDir src : String) :
    Option String :=
  let primary := primaryCandidate imagesDir src
  let final :=
    if fs primary then primary else pathJoin imagesDir (basename src)
  if fs final then some final else none

/-- Modelled from the spec: the resolution order §4.2 describes — four
candidates tried in order (known-prefix rewrite, the path as absolute,
naive join, basename join), the first existing one wins. -/
def find_image_path_spec (fs : String → Bool) (imagesDir src : String) :
    Option String :=
  let cands :=
    (if strStartsWith src "images/" then
        [pathJoin imagesDir (replaceAll src "images/" "")]
      else if strStartsWith src "/images/" then
        [pathJoin imagesDir (replaceAll src "/images/" "")]
      else []) ++
    (if isAbs src then [src] else []) ++
    [pathJoin imagesDir src] ++
    [pathJoin imagesDir (basename src)]
  cands.find? fs

/-! ## A minimal DOM for the parsed markup

`BeautifulSoup` queries used by the source: `get_text`, `find` /
`find_all` by tag and by CSS class (document pre-order, descendants
only), `find_all(..., recursive=False)` (direct children), attribute
lookup `get`, and serialization `str(...)`. -/

mutual
inductive Node where
  | text (s : String)
  | elem (tag : String) (classes : List String) (style : String)
      (attrs : List (String × String)) (children : NodeList)
deriving DecidableEq
inductive NodeList where
  | nil
  | cons (hd : Node) (tl : NodeList)
deriving DecidableEq
end

/-- Build a `NodeList` from a `List Node`. -/
def nodes : List Node → NodeList
  | [] => .nil
  | n :: rest => .cons n (nodes rest)

mutual
def Node.textContent : Node → List Char
  | .text s => s.data
  | .elem _ _ _ _ ch => NodeList.textContent ch
def NodeList.textContent : NodeList → List Char
  | .nil => []
  | .cons n rest => Node.textContent n ++ NodeList.textContent rest
end

/-- Method `BeautifulSoup.get_text()`: the concatenated text of the subtree. -/
def Node.getText (n : Node) : String :=
  ⟨n.textContent⟩

mutual
def Node.subAll (p : String → List String → Bool) : Node → List Node
  | .text _ => []
  | .elem t cls sty attrs ch =>
    (if p t cls then [Node.elem t cls sty attrs ch] else []) ++
      NodeList.subAll p ch
def NodeList.subAll (p : String → List String → Bool) : NodeList → List Node
  | .nil => []
  | .cons n rest => Node.subAll p n ++ NodeList.subAll p rest
end

/-- All matching elements among the strict descendants of `n`, in
document (pre-)order — `find_all` semantics. -/
def Node.findAllP (p : String → List String → Bool) : Node → List Node
  | .text _ => []
  | .elem _ _ _ _ ch => NodeList.subAll p ch

/-- Query `soup.find_all(tag)`. -/
def Node.findAllTag (tag : String) (n : Node) : List Node :=
  n.findAllP (fun t _ => t == tag)

/-- Query `soup.find(tag)`. -/
def Node.findTag? (tag : String) (n : Node) : Option Node :=
  (n.findAllTag tag).head?

/-- Query `soup.find_all(class_=cls)`. -/
def Node.findAllClass (cls : String) (n : Node) : List Node :=
  n.findAllP (fun _ cs => cs.contains cls)

/-- Query `soup.find(class_=cls)`. -/
def Node.findClass? (cls : String) (n : Node) : Option Node :=
  (n.findAllClass cls).head?

def NodeList.toList : NodeList → List Node
  | .nil => []
  | .cons n rest => n :: NodeList.toList rest

/-- Direct children (for `recursive=False` queries). -/
def Node.children : Node → List Node
  | .text _ => []
  | .elem _ _ _ _ ch => ch.toList

def Node.tag : Node → String
  | .text _ => ""
  | .elem t _ _ _ _ => t

def Node.classes : Node → List String
  | .text _ => []
  | .elem _ cls _ _ _ => cls

/-- Attribute lookup `node.get(key, '')`. -/
def Node.attr (key : String) : Node → String
  | .text _ => ""
  | .elem _ _ _ attrs _ =>
    match attrs.find? (fun kv => kv.1 == key) with
    | some kv => kv.2
    | none => ""

def joinSpaces : List String → String
  | [] => ""
  | [c] => c
  | c :: rest => c ++ " " ++ joinSpaces rest

def renderAttrs : List (String × String) → String
  | [] => ""
  | kv :: rest => " " ++ kv.1 ++ "=\"" ++ kv.2 ++ "\"" ++ renderAttrs rest

mutual
def Node.render : Node → String
  | .text s => s
  | .elem t cls sty attrs ch =>
    "<" ++ t ++
      (if cls.isEmpty then "" else " class=\"" ++ joinSpaces cls ++ "\"") ++
      (if sty == "" then "" else " style=\"" ++ sty ++ "\"") ++
      renderAttrs attrs ++ ">" ++ NodeList.render ch ++ "</" ++ t ++ ">"
def NodeList.render : NodeList → String
  | .nil => ""
  | .cons n rest => Node.render n ++ NodeList.render rest
end

/-! ## Positioned elements and `add_text_element` -/

inductive Align where
  | left
  | center
  | right
deriving DecidableEq

/-- A text box as `add_text_element` produces it (lengths in inches,
font size in points). -/
structure TextElem where
  text : String
  left : ℚ
  top : ℚ
  width : ℚ
  height : ℚ
  fontSize : ℕ
  bold : Bool
  color : Option String
  align : Align
deriving DecidableEq

/-- A positioned element of a slide: text box or picture. -/
inductive PElem where
  | textbox (e : TextElem)
  | picture (path : String) (left top width height : ℚ)
deriving DecidableEq

/-- Function `add_text_element`: skips empty / whitespace-only text, otherwise
adds one text box whose paragraph text is `clean_text text`. -/
def add_text_element (text : String) (left top width height : ℚ)
    (fontSize : ℕ) (bold : Bool) (color : Option String) (align : Align) :
    Option TextElem :=
  if stripL text.data = [] then none
  else some ⟨clean_text text, left, top, width, height, fontSize, bold, color, align⟩

/-- The shapes contributed by one `add_text_element` call. -/
def optText (o : Option TextElem) : List PElem :=
  match o with
  | none => []
  | some e => [.textbox e]

/-- One entry of `slide_data['images']`. -/
structure ImageRef where
  path : String
  alt : String
  style : String
deriving DecidableEq

/-- One `slide_data` record as `parse_html_slides` builds it. -/
structure SlideData where
  title : String
  soup : Node
  background_color : Option String
  images : List ImageRef
deriving DecidableEq

/-! ## The "537 Million" hook template (`process_slide_content`, hook branch) -/

/-- The large centered number: emitted only when the section has an `h1`
whose cleaned text contains `'537'`; also yields the `y` cursor the
paragraph loop starts from. -/
def hookBig (soup : Node) : List PElem × ℚ :=
  match soup.findTag? "h1" with
  | some h1 =>
    if strContains (clean_text h1.getText) "537" then
      (optText (add_text_element "537 Million" 1 1.8 8 1.5 80 true
        (some "#ef4444") .center), 3.6)
    else ([], 1.2)
  | none => ([], 1.2)

/-- The paragraph loop of the hook branch (skips empty and `'Source'`
paragraphs; styles the worldwide / problem / undetected lines). -/
def hookParas (ps : List Node) (y : ℚ) : List PElem × ℚ :=
  match ps with
  | [] => ([], y)
  | p :: rest =>
    let t := clean_text p.getText
    if t = "" then hookParas rest y
    else if strContains t "Source" then hookParas rest y
    else if strContains t "People worldwide" ||
        strContains (pyLower t) "worldwide" then
      let r := hookParas rest (y + 0.6)
      (optText (add_text_element t 1 y 8 0.4 14 false (some "#334155") .center)
        ++ r.1, r.2)
    else if strContains (pyLower t) "problem" && strContains t "But" then
      let r := hookParas rest (y + 0.5)
      (optText (add_text_element t 1 y 8 0.4 16 true (some "#005088") .center)
        ++ r.1, r.2)
    else if strContains (pyLower t) "undetected" ||
        strContains (pyLower t) "complications" then
      let r := hookParas rest (y + 0.5)
      (optText (add_text_element t 1 y 8 0.3 13 false (some "#64748b") .center)
        ++ r.1, r.2)
    else hookParas rest y

/-- The trailing source-citation element (first `'Source'` paragraph). -/
def hookSource (ps : List Node) (y : ℚ) : List PElem :=
  match ps.find? (fun p => strContains (clean_text p.getText) "Source") with
  | some p =>
    optText (add_text_element (clean_text p.getText) 1 y 8 0.3 10 false
      (some "#64748b") .center)
  | none => []

/-- All shapes the hook branch adds to the slide, in order. -/
def hookElems (soup : Node) : List PElem :=
  let big := hookBig soup
  let ps := soup.findAllTag "p"
  let paras := hookParas ps big.2
  big.1 ++ paras.1 ++ hookSource ps paras.2

/-! ## The "Interactive Dashboard" template -/

def dashTitle (title : String) : List PElem :=
  if title ≠ "" then
    optText (add_text_element title 0.5 0.2 9 0.5 24 true (some "#005088") .left)
  else []

def dashSubtitle (soup : Node) : List PElem :=
  match soup.findTag? "p" with
  | some p =>
    let t := clean_text p.getText
    if strContains (pyLower t) "class balance" || strContains (pyLower t) "smote" then
      optText (add_text_element t 0.5 0.7 9 0.25 10 false (some "#64748b") .left)
    else []
  | none => []

/-- Left column: the dashboard image and its caption.  `fs` is the
file-existence state of the disk, `meta` the image metadata reads. -/
def dashImage (fs : String → Bool) (meta : String → Option ImgMeta)
    (soup : Node) (images : List ImageRef) : List PElem :=
  match images with
  | [] => []
  | img :: _ =>
    if fs img.path then
      let wh := get_image_size_safe (meta img.path) 5 4
      .picture img.path 0.5 1.1 wh.1 wh.2 ::
        (match soup.findClass? "image-caption" with
         | some cap =>
           optText (add_text_element (clean_text cap.getText) 0.5
             (1.1 + wh.2 + 0.05) 5 0.25 7 false (some "#64748b") .center)
         | none => [])
    else []

/-- The two feature cards: by class `card` anywhere, else the second
direct `div` child of the `two-col` wrapper. -/
def dashCards (soup : Node) : List Node :=
  let cards := soup.findAllClass "card"
  if cards ≠ [] then cards
  else
    match soup.findClass? "two-col" with
    | some tc =>
      match tc.children.filter (fun n => n.tag == "div") with
      | _ :: d2 :: _ =>
        d2.children.filter (fun n => n.tag == "div" && n.classes.contains "card")
      | _ => []
    | none => []

/-- The (mojibake) icon strings stripped from the "Interactive Features"
header. -/
def featRep1 : String :=
  ⟨[Char.ofNat 0xF0, Char.ofNat 0x178, Char.ofNat 0x203A, Char.ofNat 0xA0,
    Char.ofNat 0xEF, Char.ofNat 0xB8]⟩

def featRep2 : String :=
  ⟨[Char.ofNat 0xE2, Char.ofNat 0x161, Char.ofNat 0x2122, Char.ofNat 0xEF,
    Char.ofNat 0xB8]⟩

/-- The icon strings stripped from the "What You Can Explore" header. -/
def expRep1 : String :=
  ⟨[Char.ofNat 0xF0, Char.ofNat 0x178, Char.ofNat 0x201D]⟩

def expRep2 : String :=
  ⟨[Char.ofNat 0xF0, Char.ofNat 0x178, Char.ofNat 0x201C, Char.ofNat 0x160]⟩

/-- Header and bullet items of one feature card, with the hardcoded
defaults used when the card or its pieces are missing. -/
def cardHeaderItems (card? : Option Node) (defaultHeader : String)
    (rep1 rep2 : String) (defaults : List String) : String × List String :=
  let header :=
    match card? with
    | some c =>
      match c.findTag? "h4" with
      | some h4 =>
        ⟨stripL ((replaceAll (replaceAll (clean_text h4.getText) rep1 "")
          rep2 "").data)⟩
      | none => defaultHeader
    | none => defaultHeader
  let items :=
    match card? with
    | some c =>
      match c.findTag? "ul" with
      | some ul =>
        (ul.findAllTag "li").filterMap (fun li =>
          let t := clean_text li.getText
          if t ≠ "" then some t else none)
      | none => []
    | none => []
  (header, if items = [] then defaults else items)

/-- The literal default "Interactive Features" bullets. -/
def defaultFeatures : List String :=
  ["Class Distribution Slider: Adjust from 40% to 70% to see how balance affects performance",
   "SMOTE Toggle: Enable/disable synthetic oversampling",
   "Real-Time Updates: Metrics recalculate with actual R model training",
   "Live ROC Curves: Watch curves update as parameters change"]

/-- The literal default "What You Can Explore" bullets. -/
def defaultExplore : List String :=
  ["Balanced Classes (50/50): See how specificity improves",
   "SMOTE Impact: Compare with/without synthetic oversampling",
   "Model Comparison: Watch LDA vs QDA performance change",
   "Tooltips: Hover over metrics for explanations"]

/-- The mojibake bullet marker `'â€¢'` the source prefixes to items. -/
def bulletMark : String :=
  ⟨[Char.ofNat 0xE2, Char.ofNat 0x20AC, Char.ofNat 0xA2]⟩

def bulletize (item : String) : String :=
  if strStartsWith item bulletMark then item else bulletMark ++ " " ++ item

/-- The bullet loop of one feature box: items are drawn while the cursor
is above `limit`, each advancing the cursor by 0.32 inches. -/
def drawDashItems (items : List String) (y limit : ℚ) : List PElem × ℚ :=
  match items with
  | [] => ([], y)
  | it :: rest =>
    if y < limit then
      let r := drawDashItems rest (y + 0.32) limit
      (optText (add_text_element (bulletize it) 5.65 y 3.7 0.3 8 false
        (some "#334155") .left) ++ r.1, r.2)
    else drawDashItems rest y limit

/-- The two right-column feature boxes, headers and bullets, in drawing
order. -/
def dashBoxes (soup : Node) : List PElem :=
  let cards := dashCards soup
  let fi := cardHeaderItems cards.head? "Interactive Features" featRep1
    featRep2 defaultFeatures
  let ex := cardHeaderItems (cards.get? 1) "What You Can Explore" expRep1
    expRep2 defaultExplore
  let hdr1 := optText (add_text_element fi.1 5.6 1.1 3.8 0.3 12 true
    (some "#005088") .left)
  let box1 := drawDashItems (fi.2.take 4) 1.45 3
  let hdr2 := optText (add_text_element ex.1 5.6 (box1.2 + 0.1) 3.8 0.3 12 true
    (some "#005088") .left)
  let box2 := drawDashItems (ex.2.take 4) (box1.2 + 0.1 + 0.35) 5.5
  hdr1 ++ box1.1 ++ hdr2 ++ box2.1

/-- The bottom "Live Demo" block (always emitted). -/
def dashDemo (soup : Node) : List PElem :=
  let url :=
    match (soup.findAllTag "a").find? (fun a =>
        strContains (a.attr "href") "vercel.app" ||
        strContains (pyLower (a.attr "href")) "dashboard") with
    | some a => a.attr "href"
    | none => ""
  let demoUrl :=
    if url = "" then
      "https://asds-5303-final-project-presentatio.vercel.app/dashboard.html"
    else url
  optText (add_text_element "Live Demo: Try the interactive dashboard yourself!"
      0.6 5.6 8.8 0.25 10 true (some "#005088") .left) ++
    optText (add_text_element demoUrl 0.6 5.9 8.8 0.25 9 false
      (some "#2563eb") .left) ++
    optText (add_text_element
      "Adjust the slider and toggle SMOTE to see real-time model performance changes."
      0.6 6.2 8.8 0.25 8 false (some "#64748b") .left)

/-- All shapes the dashboard branch adds to the slide, in order. -/
def dashboardElems (fs : String → Bool) (meta : String → Option ImgMeta)
    (title : String) (soup : Node) (images : List ImageRef) : List PElem :=
  dashTitle title ++ dashSubtitle soup ++ dashImage fs meta soup images ++
    dashBoxes soup ++ dashDemo soup

/-! ## The class-imbalance "The Numbers" extraction chain -/

/-- Tier 1 (structured lookup): list items under the `bg-light` block
whose cleaned text mentions `Diabetes`. -/
def bgLightItems (soup : Node) : List String :=
  match soup.findClass? "bg-light" with
  | some d =>
    (d.findAllTag "li").filterMap (fun li =>
      let t := clean_text li.getText
      if t ≠ "" ∧ (strContains t "No Diabetes" ∨ strContains t "Diabetes")
      then some t else none)
  | none => []

/-- Tier 2 (keyword search): any list item mentioning `65%` or `35%`. -/
def percentItems (soup : Node) : List String :=
  (soup.findAllTag "li").filterMap (fun li =>
    let t := clean_text li.getText
    if strContains t "65%" ∨ strContains t "35%" then some t else none)

/-- Tier 3: the hardcoded default. -/
def defaultNumbers : List String :=
  ["No Diabetes: ~500 cases (65%)", "Diabetes: ~265 cases (35%)"]

/-- The full three-tier chain computing `numbers_details`. -/
def numbersDetails (soup : Node) : List String :=
  let n1 := bgLightItems soup
  if n1 ≠ [] then n1
  else
    let n2 := percentItems soup
    if n2 ≠ [] then n2 else defaultNumbers

/-! ## The content classifier -/

inductive TemplateId where
  | mission
  | hook
  | dataSlide
  | classImbalance
  | preprocessing
  | dataViz
  | correlations
  | pca
  | modelPerformance
  | ldaVsQda
  | blindSpot
  | plotTwist
  | dashboard
  | learned
  | questions
  | titleSlide
  | generic
deriving DecidableEq

def predMission (sd : SlideData) : Bool :=
  sd.title != "" && strContains sd.title "Mission" && !sd.images.isEmpty

def predHook (sd : SlideData) : Bool :=
  strContains sd.soup.render "537 Million" ||
    (sd.title != "" && strContains sd.title "537")

def predData (sd : SlideData) : Bool :=
  sd.title != "" &&
    (strContains sd.title "Our Data" || strContains sd.title "Pima Indians")

def predClassImbalance (sd : SlideData) : Bool :=
  sd.title != "" &&
    (strContains sd.title "Class Imbalance" || strContains sd.title "Red Flag")

def predPreprocessing (sd : SlideData) : Bool :=
  sd.title != "" && (strContains sd.title "Preparing for Battle" ||
    strContains sd.title "Data Preprocessing")

def predDataViz (sd : SlideData) : Bool :=
  sd.title != "" && strContains sd.title "Data Visualization"

def predCorrelations (sd : SlideData) : Bool :=
  sd.title != "" && strContains sd.title "Key Correlations"

def predPca (sd : SlideData) : Bool :=
  sd.title != "" && strContains sd.title "Principal Component Analysis"

def predModelPerformance (sd : SlideData) : Bool :=
  sd.title != "" && strContains sd.title "Moment of Truth"

def predLdaVsQda (sd : SlideData) : Bool :=
  sd.title != "" && (strContains sd.title "LDA vs QDA" ||
    strContains sd.title "Detailed Results")

def predBlindSpot (sd : SlideData) : Bool :=
  sd.title != "" && strContains sd.title "Critical Blind Spot"

def predPlotTwist (sd : SlideData) : Bool :=
  sd.title != "" && strContains sd.title "Plot Twist"

def predDashboard (sd : SlideData) : Bool :=
  sd.title != "" && strContains sd.title "Interactive Dashboard"

def predLearned (sd : SlideData) : Bool :=
  sd.title != "" && (strContains sd.title "What We Learned" ||
    strContains sd.title "Journey's End")

def predQuestions (sd : SlideData) : Bool :=
  sd.title != "" && strContains sd.title "Questions"

def predTitle (sd : SlideData) : Bool :=
  sd.title != "" && strContains sd.title "Comparative Analysis"

/-- The branch dispatch of `process_slide_content`, in source order: the
first special-branch guard that holds selects the template; otherwise the
trailing generic layout runs. -/
def classifySlide (sd : SlideData) : TemplateId :=
  if predMission sd then .mission
  else if predHook sd then .hook
  else if predData sd then .dataSlide
  else if predClassImbalance sd then .classImbalance
  else if predPreprocessing sd then .preprocessing
  else if predDataViz sd then .dataViz
  else if predCorrelations sd then .correlations
  else if predPca sd then .pca
  else if predModelPerformance sd then .modelPerformance
  else if predLdaVsQda sd then .ldaVsQda
  else if predBlindSpot sd then .blindSpot
  else if predPlotTwist sd then .plotTwist
  else if predDashboard sd then .dashboard
  else if predLearned sd then .learned
  else if predQuestions sd then .questions
  else if predTitle sd then .titleSlide
  else .generic

/-- Modelled from the spec (§4.4): an explicit ordered dispatch table of
`(predicate, template)` pairs. -/
def classifyRules : List ((SlideData → Bool) × TemplateId) :=
  [(predMission, .mission), (predHook, .hook), (predData, .dataSlide),
   (predClassImbalance, .classImbalance), (predPreprocessing, .preprocessing),
   (predDataViz, .dataViz), (predCorrelations, .correlations),
   (predPca, .pca), (predModelPerformance, .modelPerformance),
   (predLdaVsQda, .ldaVsQda), (predBlindSpot, .blindSpot),
   (predPlotTwist, .plotTwist), (predDashboard, .dashboard),
   (predLearned, .learned), (predQuestions, .questions),
   (predTitle, .titleSlide)]

/-- Modelled from the spec (§4.4): evaluate the rules top to bottom, the
first matching predicate wins, default generic. -/
def firstMatch : List ((SlideData → Bool) × TemplateId) → SlideData → TemplateId
  | [], _ => .generic
  | r :: rs, sd => if r.1 sd then r.2 else firstMatch rs sd

/-- The element sequences of the templates modelled in this development,
keyed by the classifier. -/
def modeledLayout (fs : String → Bool) (meta : String → Option ImgMeta)
    (sd : SlideData) : Option (List PElem) :=
  match classifySlide sd with
  | .hook => some (hookElems sd.soup)
  | .dashboard => some (dashboardElems fs meta sd.title sd.soup sd.images)
  | _ => none

/-! ## The deck assembler (`create_pptx_from_slides`) -/

/-- One output slide. -/
structure Slide where
  background : Option (Int × Int × Int)
  elements : List PElem
deriving DecidableEq

/-- One iteration of the assembler loop: the slide is created first; the
content processor `proc` returns the elements it appended before
returning or raising (`(proc sd).2 = some err` models an exception caught
by the `except` arm — the partial element list is kept either way). -/
def mkSlide (proc : SlideData → List PElem × Option String) (sd : SlideData) :
    Slide :=
  { background :=
      match sd.background_color with
      | some c => if c != "" then some (hex_to_rgb (some c)) else none
      | none => none,
    elements := (proc sd).1 }

/-- Function `create_pptx_from_slides`: one slide per `slide_data`, in order. -/
def create_pptx_from_slides (proc : SlideData → List PElem × Option String)
    (slides : List SlideData) : List Slide :=
  slides.map (mkSlide proc)

/-! ## Auxiliary definitions used by the theorems -/

/-- Component-wise range of an RGB triple as `hex_to_rgb` can actually
produce it. -/
def rgbInRange (t : Int × Int × Int) : Prop :=
  -15 ≤ t.1 ∧ t.1 ≤ 255 ∧ -15 ≤ t.2.1 ∧ t.2.1 ≤ 255 ∧ -15 ≤ t.2.2 ∧ t.2.2 ≤ 255

/-- Title extraction of `parse_html_slides`: the cleaned text of the
first `h1`/`h2` heading, else `""`. -/
def parseTitle (soup : Node) : String :=
  match (soup.findAllP (fun t _ => t == "h1" || t == "h2")).head? with
  | some n => clean_text n.getText
  | none => ""

/-- A hook-style section whose heading is an `h2` — there is no `h1` at
all, though the title and serialized content contain "537 Million". -/
def hookCexSoup : Node :=
  .elem "section" [] "" []
    (nodes [.elem "h2" [] "" [] (nodes [.text "537 Million Reasons to Care"]),
            .elem "p" [] "" [] (nodes [.text "People worldwide live with diabetes"])])

/-- A hook section with a genuine `h1` and a worldwide paragraph. -/
def hookWitSoup : Node :=
  .elem "section" [] "" []
    (nodes [.elem "h1" [] "" [] (nodes [.text "537 Million"]),
            .elem "p" [] "" [] (nodes [.text "People worldwide live with diabetes"])])

/-- A dashboard section carrying no feature-card markup at all. -/
def dashWitSoup : Node :=
  .elem "section" [] "" [] .nil

/-- A section with no `bg-light` block and no list items. -/
def c4WitSoup : Node :=
  .elem "div" [] "" [] .nil

/-- A concrete slide record for the determinism witness. -/
def c8WitSlide : SlideData :=
  ⟨"Interactive Dashboard: See It Live", dashWitSoup, none, []⟩

/-- The ten feature-box elements the dashboard template draws when no
card content exists: each default header followed by its four literal
default bullets (bullet marker `â€¢` rendered as `€¢` because
`clean_text` deletes the `â`). -/
def dashDefaultBoxElems : List PElem :=
  [.textbox ⟨"Interactive Features", 5.6, 1.1, 3.8, 0.3, 12, true,
     some "#005088", .left⟩,
   .textbox ⟨"€¢ Class Distribution Slider: Adjust from 40% to 70% to see how balance affects performance",
     5.65, 1.45, 3.7, 0.3, 8, false, some "#334155", .left⟩,
   .textbox ⟨"€¢ SMOTE Toggle: Enable/disable synthetic oversampling",
     5.65, 1.77, 3.7, 0.3, 8, false, some "#334155", .left⟩,
   .textbox ⟨"€¢ Real-Time Updates: Metrics recalculate with actual R model training",
     5.65, 2.09, 3.7, 0.3, 8, false, some "#334155", .left⟩,
   .textbox ⟨"€¢ Live ROC Curves: Watch curves update as parameters change",
     5.65, 2.41, 3.7, 0.3, 8, false, some "#334155", .left⟩,
   .textbox ⟨"What You Can Explore", 5.6, 2.83, 3.8, 0.3, 12, true,
     some "#005088", .left⟩,
   .textbox ⟨"€¢ Balanced Classes (50/50): See how specificity improves",
     5.65, 3.18, 3.7, 0.3, 8, false, some "#334155", .left⟩,
   .textbox ⟨"€¢ SMOTE Impact: Compare with/without synthetic oversampling",
     5.65, 3.5, 3.7, 0.3, 8, false, some "#334155", .left⟩,
   .textbox ⟨"€¢ Model Comparison: Watch LDA vs QDA performance change",
     5.65, 3.82, 3.7, 0.3, 8, false, some "#334155", .left⟩,
   .textbox ⟨"€¢ Tooltips: Hover over metrics for explanations",
     5.65, 4.14, 3.7, 0.3, 8, false, some "#334155", .left⟩]

/-! ## C1: the deck assembler produces one slide per section -/

/-- **C1.** For every list of parsed sections and every behavior of the
content processor (`proc sd = (elements appended, optional caught
exception)`), `create_pptx_from_slides` produces exactly one slide per
section, index-aligned, and keeps the partially built element list even
when processing failed — the deck length always equals the section
count. -/
theorem create_pptx_one_slide_per_section
    (proc : SlideData → List PElem × Option String) (slides : List SlideData) :
    (create_pptx_from_slides proc slides).length = slides.length ∧
    (∀ i : ℕ, (create_pptx_from_slides proc slides)[i]? =
      (slides[i]?).map (mkSlide proc)) ∧
    (∀ sd : SlideData, (mkSlide proc sd).elements = (proc sd).1) := by
  refine ⟨List.length_map _ _, fun i => ?_, fun sd => rfl⟩
  simp [create_pptx_from_slides]

/-! ## C7: decode failure falls back to the default size -/

/-- **C7.** When the image read fails (`none` metadata), `get_image_size`
returns the fixed default `(6, 4)` inches; the embedding is total, so no
exception reaches the caller. -/
theorem get_image_size_decode_failure_default (maxW maxH : ℚ) :
    get_image_size_safe none maxW maxH = (6, 4) := rfl

/-! ## C2: image geometry preserves aspect ratio but bounds only one side -/

/-- **C2 counterexample.** A 2000×1900 image at 96 DPI scaled into an
8×5 box: the landscape branch fits the width only, returning height
7.6 > 5, so the claimed `h ≤ maxHeight` fails. -/
theorem get_image_size_box_bound_cex :
    get_image_size 2000 1900 96 8 5 = (8, 38 / 5) ∧ ¬((38 : ℚ) / 5 ≤ 5) := by
  constructor
  · simp only [get_image_size]
    norm_num
  · norm_num

/-- **C2 (amended).** `get_image_size` preserves the native aspect ratio
exactly (`w / h = pw / ph`), and bounds the scaled dimension: the width
when the natural size does not fit and the image is landscape, the height
otherwise — so at least one of `w ≤ maxW`, `h ≤ maxH` always holds, but
not necessarily both. -/
theorem get_image_size_aspect_and_scaled_bound (pw ph dpi : ℕ) (maxW maxH : ℚ)
    (hph : 0 < ph) (hdpi : 0 < dpi) (hW : 0 < maxW) (hH : 0 < maxH) :
    (get_image_size pw ph dpi maxW maxH).1 /
        (get_image_size pw ph dpi maxW maxH).2 = (pw : ℚ) / (ph : ℚ) ∧
    ((get_image_size pw ph dpi maxW maxH).1 ≤ maxW ∨
      (get_image_size pw ph dpi maxW maxH).2 ≤ maxH) := by
  have hph' : ((ph : ℚ)) ≠ 0 := by
    exact_mod_cast Nat.pos_iff_ne_zero.mp hph
  have hdpi' : ((dpi : ℚ)) ≠ 0 := by
    exact_mod_cast Nat.pos_iff_ne_zero.mp hdpi
  simp only [get_image_size]
  split_ifs with hcond hland
  · refine ⟨?_, Or.inl le_rfl⟩
    have ha : (pw : ℚ) / (ph : ℚ) ≠ 0 := ne_of_gt (lt_trans one_pos hland)
    field_simp
    ring
  · refine ⟨?_, Or.inr le_rfl⟩
    exact mul_div_cancel_left₀ _ (ne_of_gt hH)
  · push_neg at hcond
    refine ⟨?_, Or.inl hcond.1⟩
    rw [div_div_div_cancel_right₀]
    exact hdpi'

/-- Witness for C2 at a concrete readable image and box. -/
theorem get_image_size_aspect_witness :
    (get_image_size 800 600 96 8 5).1 / (get_image_size 800 600 96 8 5).2 =
      (800 : ℚ) / (600 : ℚ) ∧
    ((get_image_size 800 600 96 8 5).1 ≤ 8 ∨
      (get_image_size 800 600 96 8 5).2 ≤ 5) :=
  get_image_size_aspect_and_scaled_bound 800 600 96 8 5 (by norm_num)
    (by norm_num) (by norm_num) (by norm_num)

/-! ## C3: path resolution is syntactic-first, not existence-first -/

/-- **C3 counterexample.** With only `/images/foo.png` on disk and
`src = "/images/foo.png"`, the spec's existence-ordered resolution finds
the absolute path (strategy 2), but the code commits to the `/images/`
prefix rewrite syntactically, finds neither it nor the basename fallback
on disk, and drops the image. -/
theorem find_image_path_order_cex :
    find_image_path (fun p => p == "/images/foo.png") "images"
      "/images/foo.png" = none ∧
    find_image_path_spec (fun p => p == "/images/foo.png") "images"
      "/images/foo.png" = some "/images/foo.png" := by
  exact ⟨by decide, by decide⟩

/-- **C3 (amended).** The resolver builds a single primary candidate from
the syntactic form of `src` (prefix rewrite, absolute, or naive join —
mutually exclusive), falls back to the basename joined to the asset root
only when the primary does not exist, and drops the reference exactly
when both of those two candidates are missing; any returned path exists
on disk. -/
theorem find_image_path_characterization (fs : String → Bool)
    (imagesDir src : String) :
    (∀ p, find_image_path fs imagesDir src = some p → fs p = true) ∧
    (find_image_path fs imagesDir src = none ↔
      fs (primaryCandidate imagesDir src) = false ∧
      fs (pathJoin imagesDir (basename src)) = false) := by
  unfold find_image_path
  cases h1 : fs (primaryCandidate imagesDir src) <;>
    cases h2 : fs (pathJoin imagesDir (basename src)) <;>
      simp [h1, h2]

/-- Witness for C3: a resolved relative path exists on disk. -/
theorem find_image_path_characterization_witness :
    (fun p => p == "images/pic.png") "images/pic.png" = true :=
  (find_image_path_characterization (fun p => p == "images/pic.png")
    "images" "pic.png").1 "images/pic.png" (by decide)

/-! ## Small shared lemmas -/

lemma mk_data (l : List Char) : (String.mk l).data = l := rfl

lemma dropWhile_head_not (p : Char → Bool) (l : List Char) (c : Char)
    (cs : List Char) (h : l.dropWhile p = c :: cs) : p c = false := by
  induction l with
  | nil => simp [List.dropWhile] at h
  | cons a as ih =>
    rw [List.dropWhile_cons] at h
    by_cases hp : p a
    · rw [if_pos hp] at h
      exact ih h
    · rw [if_neg hp] at h
      injection h with h1 h2
      subst h1
      cases hb : p a with
      | false => rfl
      | true => exact absurd hb hp

/-! ## C9: `hex_to_rgb` is total, but the parser accepts signs -/

lemma hexDigit?_le (c : Char) (d : ℕ) (h : hexDigit? c = some d) : d ≤ 15 := by
  simp only [hexDigit?] at h
  split_ifs at h with h1 h2 h3
  · injection h with h'
    omega
  · injection h with h'
    omega
  · injection h with h'
    omega

lemma hexDigits?_single (c : Char) (m : ℕ) (h : hexDigits? [c] = some m) :
    m ≤ 15 := by
  simp only [hexDigits?, hexDigitsAux] at h
  cases hd : hexDigit? c with
  | none => rw [hd] at h; cases h
  | some d =>
    rw [hd] at h
    simp only [hexDigitsAux] at h
    injection h with h'
    have := hexDigit?_le c d hd
    omega

lemma hexDigits?_pair (c1 c2 : Char) (m : ℕ) (h : hexDigits? [c1, c2] = some m) :
    m ≤ 255 := by
  simp only [hexDigits?, hexDigitsAux] at h
  cases hd1 : hexDigit? c1 with
  | none => rw [hd1] at h; cases h
  | some d1 =>
    rw [hd1] at h
    cases hd2 : hexDigit? c2 with
    | none => rw [hd2] at h; cases h
    | some d2 =>
      rw [hd2] at h
      injection h with h'
      have e1 := hexDigit?_le c1 d1 hd1
      have e2 := hexDigit?_le c2 d2 hd2
      omega

lemma stripL_length_le (l : List Char) : (stripL l).length ≤ l.length := by
  unfold stripL
  calc ((l.dropWhile pyIsSpace).rdropWhile pyIsSpace).length
      ≤ (l.dropWhile pyIsSpace).length :=
        (List.rdropWhile_prefix _ _).length_le
    _ ≤ l.length := (List.dropWhile_sublist _).length_le

lemma pyIntHex?_range (l : List Char) (hl : l.length ≤ 2) (n : Int)
    (h : pyIntHex? l = some n) : -15 ≤ n ∧ n ≤ 255 := by
  have hst : (stripL l).length ≤ 2 := le_trans (stripL_length_le l) hl
  rcases ht : stripL l with _ | ⟨c, rest⟩
  · simp [pyIntHex?, ht] at h
  · simp only [pyIntHex?, ht] at h
    rw [ht] at hst
    rcases rest with _ | ⟨c2, rest2⟩
    · split_ifs at h with hneg hpos
      · simp [hexDigits?] at h
      · simp [hexDigits?] at h
      · cases hm : hexDigits? [c] with
        | none => simp [hm] at h
        | some m =>
          simp only [hm] at h
          injection h with h'
          have := hexDigits?_single c m hm
          omega
    · rcases rest2 with _ | ⟨c3, rest3⟩
      · split_ifs at h with hneg hpos
        · cases hm : hexDigits? [c2] with
          | none => simp [hm] at h
          | some m =>
            simp only [hm] at h
            injection h with h'
            have := hexDigits?_single c2 m hm
            omega
        · cases hm : hexDigits? [c2] with
          | none => simp [hm] at h
          | some m =>
            simp only [hm] at h
            injection h with h'
            have := hexDigits?_single c2 m hm
            omega
        · cases hm : hexDigits? [c, c2] with
          | none => simp [hm] at h
          | some m =>
            simp only [hm] at h
            injection h with h'
            have := hexDigits?_pair c c2 m hm
            omega
      · simp at hst

lemma hexTriple?_range (l : List Char) (r g b : Int)
    (h : hexTriple? l = some (r, g, b)) : rgbInRange (r, g, b) := by
  unfold hexTriple? at h
  cases h1 : pyIntHex? ((l.drop 0).take 2) with
  | none => rw [h1] at h; cases h
  | some r' =>
    cases h2 : pyIntHex? ((l.drop 2).take 2) with
    | none => rw [h1, h2] at h; cases h
    | some g' =>
      cases h3 : pyIntHex? ((l.drop 4).take 2) with
      | none => rw [h1, h2, h3] at h; cases h
      | some b' =>
        rw [h1, h2, h3] at h
        simp only [Option.some.injEq, Prod.mk.injEq] at h
        obtain ⟨e1, e2, e3⟩ := h
        subst e1
        subst e2
        subst e3
        have b1 := pyIntHex?_range _ (List.length_take_le _ _) _ h1
        have b2 := pyIntHex?_range _ (List.length_take_le _ _) _ h2
        have b3 := pyIntHex?_range _ (List.length_take_le _ _) _ h3
        exact ⟨b1.1, b1.2, b2.1, b2.2, b3.1, b3.2⟩

/-- **C9 counterexample.** Python's `int(_, 16)` accepts a sign, so the
malformed six-character string `"-f-f-f"` parses to `(-15, -15, -15)`:
`hex_to_rgb` does not return white on it, and the components are not in
`[0, 255]`. -/
theorem hex_to_rgb_range_cex :
    hex_to_rgb (some "-f-f-f") = (-15, -15, -15) ∧ ¬(0 ≤ (-15 : Int)) := by
  exact ⟨by decide, by decide⟩

/-- **C9 (amended).** `hex_to_rgb` is total and returns components in
`[-15, 255]` (sign-accepting slice parses can reach −15, so `[0, 255]` is
too strong); `None`, `''` and `'none'` yield white, any input whose slice
parse fails yields white, and a 3-character remainder after `#`-stripping
is expanded by doubling each character before parsing. -/
theorem hex_to_rgb_total_props :
    (∀ x : Option String, rgbInRange (hex_to_rgb x)) ∧
    hex_to_rgb none = (255, 255, 255) ∧
    hex_to_rgb (some "") = (255, 255, 255) ∧
    hex_to_rgb (some "none") = (255, 255, 255) ∧
    (∀ s : String, hexTriple? (expandShorthand s) = none →
      hex_to_rgb (some s) = (255, 255, 255)) ∧
    (∀ s : String, (s.data.dropWhile (· == '#')).length = 3 →
      hex_to_rgb (some s) =
        hex_to_rgb (some ⟨(s.data.dropWhile (· == '#')).flatMap
          (fun c => [c, c])⟩)) := by
  refine ⟨?_, rfl, rfl, rfl, ?_, ?_⟩
  · intro x
    match x with
    | none => exact ⟨by decide, by decide, by decide, by decide,
        by decide, by decide⟩
    | some s =>
      simp only [hex_to_rgb]
      split_ifs with hs
      · exact ⟨by decide, by decide, by decide, by decide,
          by decide, by decide⟩
      · cases ht : hexTriple? (expandShorthand s) with
        | none =>
          exact ⟨by decide, by decide, by decide, by decide,
            by decide, by decide⟩
        | some rgb =>
          obtain ⟨r, g, b⟩ := rgb
          exact hexTriple?_range _ r g b ht
  · intro s ht
    simp only [hex_to_rgb]
    split_ifs with hs
    · rfl
    · rw [ht]
  · intro s h3
    have hs1 : s ≠ "" := by
      intro hs
      subst hs
      simp at h3
    have hs2 : s ≠ "none" := by
      intro hs
      subst hs
      simp at h3
    rcases hd : s.data.dropWhile (· == '#') with _ | ⟨c1, rest⟩
    · rw [hd] at h3; simp at h3
    · rcases rest with _ | ⟨c2, rest2⟩
      · rw [hd] at h3; simp at h3
      · rcases rest2 with _ | ⟨c3, rest3⟩
        · rw [hd] at h3; simp at h3
        · rcases rest3 with _ | ⟨c4, rest4⟩
          · have hc1 : (c1 == '#') = false :=
              dropWhile_head_not (· == '#') s.data c1 [c2, c3] hd
            have hdrop2 : ([c1, c1, c2, c2, c3, c3] : List Char).dropWhile
                (· == '#') = [c1, c1, c2, c2, c3, c3] := by
              rw [List.dropWhile_cons, if_neg (by simp [hc1])]
            have hexp1 : expandShorthand s = [c1, c1, c2, c2, c3, c3] := by
              simp [expandShorthand, hd]
            have hexp2 : expandShorthand ⟨[c1, c1, c2, c2, c3, c3]⟩ =
                [c1, c1, c2, c2, c3, c3] := by
              simp [expandShorthand, mk_data, hdrop2]
            have hne2 : (⟨[c1, c1, c2, c2, c3, c3]⟩ : String) ≠ "" ∧
                (⟨[c1, c1, c2, c2, c3, c3]⟩ : String) ≠ "none" := by
              constructor <;> intro he <;>
                exact absurd (congrArg String.data he) (by simp [mk_data])
            have hfm : (⟨([c1, c2, c3] : List Char).flatMap
                (fun c => [c, c])⟩ : String) = ⟨[c1, c1, c2, c2, c3, c3]⟩ := rfl
            rw [hfm]
            simp only [hex_to_rgb]
            rw [if_neg (not_or.mpr ⟨hs1, hs2⟩), if_neg (not_or.mpr hne2),
              hexp1, hexp2]
          · rw [hd] at h3; simp at h3

/-- Witness for C9: a failing parse falls back to white, and a 3-digit
shorthand parses as its doubled 6-digit form. -/
theorem hex_to_rgb_total_props_witness :
    hex_to_rgb (some "zz") = (255, 255, 255) ∧
    hex_to_rgb (some "abc") = hex_to_rgb (some "aabbcc") := by
  constructor
  · exact hex_to_rgb_total_props.2.2.2.2.1 "zz" (by decide)
  · have h := hex_to_rgb_total_props.2.2.2.2.2 "abc" (by decide)
    have hx : (⟨("abc".data.dropWhile (· == '#')).flatMap
        (fun c => [c, c])⟩ : String) = "aabbcc" := by decide
    rw [hx] at h
    exact h

/-! ## C10: structure of `clean_text` -/

lemma splitWs_cons_ws (c : Char) (cs : List Char) (hc : pyIsSpace c = true) :
    splitWs (c :: cs) = splitWs cs := by
  conv_lhs => rw [splitWs.eq_def]
  dsimp only
  rw [if_pos hc]

lemma splitWs_single (c : Char) (hc : pyIsSpace c = false) :
    splitWs [c] = [[c]] := by
  conv_lhs => rw [splitWs.eq_def]
  dsimp only
  rw [if_neg (by simp [hc])]

lemma splitWs_cons_cons_ws (c c2 : Char) (cs' : List Char)
    (hc : pyIsSpace c = false) (hc2 : pyIsSpace c2 = true) :
    splitWs (c :: c2 :: cs') = [c] :: splitWs (c2 :: cs') := by
  conv_lhs => rw [splitWs.eq_def]
  dsimp only
  rw [if_neg (by simp [hc]), if_pos hc2]

lemma splitWs_cons_cons_nonws (c c2 : Char) (cs' : List Char)
    (hc : pyIsSpace c = false) (hc2 : pyIsSpace c2 = false) :
    splitWs (c :: c2 :: cs') =
      match splitWs (c2 :: cs') with
      | [] => [[c]]
      | w :: ws => (c :: w) :: ws := by
  conv_lhs => rw [splitWs.eq_def]
  dsimp only
  rw [if_neg (by simp [hc]), if_neg (by simp [hc2])]

lemma splitWs_wordOk (l : List Char) :
    ∀ w ∈ splitWs l, w ≠ [] ∧ ∀ c ∈ w, pyIsSpace c = false := by
  induction l with
  | nil =>
    intro w hw
    simp [splitWs] at hw
  | cons c cs ih =>
    intro w hw
    cases hc : pyIsSpace c with
    | true =>
      rw [splitWs_cons_ws c cs hc] at hw
      exact ih w hw
    | false =>
      rcases cs with _ | ⟨c2, cs'⟩
      · rw [splitWs_single c hc] at hw
        simp at hw
        subst hw
        exact ⟨by simp, by intro x hx; simp at hx; subst hx; exact hc⟩
      · cases hc2 : pyIsSpace c2 with
        | true =>
          rw [splitWs_cons_cons_ws c c2 cs' hc hc2] at hw
          rcases List.mem_cons.mp hw with h1 | h2
          · subst h1
            exact ⟨by simp, by intro x hx; simp at hx; subst hx; exact hc⟩
          · exact ih w h2
        | false =>
          rw [splitWs_cons_cons_nonws c c2 cs' hc hc2] at hw
          rcases hsw : splitWs (c2 :: cs') with _ | ⟨w', ws'⟩
          · rw [hsw] at hw
            simp at hw
            subst hw
            exact ⟨by simp, by intro x hx; simp at hx; subst hx; exact hc⟩
          · rw [hsw] at hw
            simp at hw
            rcases hw with h1 | h2
            · subst h1
              have hw' := ih w' (by rw [hsw]; exact List.mem_cons_self _ _)
              refine ⟨by simp, ?_⟩
              intro x hx
              rcases List.mem_cons.mp hx with h3 | h4
              · subst h3; exact hc
              · exact hw'.2 x h4
            · exact ih w (by rw [hsw]; exact List.mem_cons_of_mem _ h2)

lemma splitWs_mem_subset (l : List Char) :
    ∀ w ∈ splitWs l, ∀ c ∈ w, c ∈ l := by
  induction l with
  | nil =>
    intro w hw
    simp [splitWs] at hw
  | cons c cs ih =>
    intro w hw x hx
    cases hc : pyIsSpace c with
    | true =>
      rw [splitWs_cons_ws c cs hc] at hw
      exact List.mem_cons_of_mem _ (ih w hw x hx)
    | false =>
      rcases cs with _ | ⟨c2, cs'⟩
      · rw [splitWs_single c hc] at hw
        simp at hw
        subst hw
        simp at hx
        subst hx
        exact List.mem_cons_self _ _
      · cases hc2 : pyIsSpace c2 with
        | true =>
          rw [splitWs_cons_cons_ws c c2 cs' hc hc2] at hw
          rcases List.mem_cons.mp hw with h1 | h2
          · subst h1
            simp at hx
            subst hx
            exact List.mem_cons_self _ _
          · exact List.mem_cons_of_mem _ (ih w h2 x hx)
        | false =>
          rw [splitWs_cons_cons_nonws c c2 cs' hc hc2] at hw
          rcases hsw : splitWs (c2 :: cs') with _ | ⟨w', ws'⟩
          · rw [hsw] at hw
            simp at hw
            subst hw
            simp at hx
            subst hx
            exact List.mem_cons_self _ _
          · rw [hsw] at hw
            simp at hw
            rcases hw with h1 | h2
            · subst h1
              rcases List.mem_cons.mp hx with h3 | h4
              · subst h3
                exact List.mem_cons_self _ _
              · exact List.mem_cons_of_mem _
                  (ih w' (by rw [hsw]; exact List.mem_cons_self _ _) x h4)
            · exact List.mem_cons_of_mem _
                (ih w (by rw [hsw]; exact List.mem_cons_of_mem _ h2) x hx)

lemma splitWs_word_append (w : List Char) (hw : w ≠ [])
    (hok : ∀ c ∈ w, pyIsSpace c = false) (l : List Char)
    (hbnd : ∀ c, l.head? = some c → pyIsSpace c = true) :
    splitWs (w ++ l) = w :: splitWs l := by
  induction w with
  | nil => exact absurd rfl hw
  | cons c w' ih =>
    have hc : pyIsSpace c = false := hok c (List.mem_cons_self _ _)
    rcases w' with _ | ⟨c', w''⟩
    · rcases l with _ | ⟨a, l'⟩
      · simpa using splitWs_single c hc
      · have ha : pyIsSpace a = true := hbnd a rfl
        exact splitWs_cons_cons_ws c a l' hc ha
    · have hc' : pyIsSpace c' = false :=
        hok c' (List.mem_cons_of_mem _ (List.mem_cons_self _ _))
      have ihr := ih (by simp) (fun x hx => hok x (List.mem_cons_of_mem _ hx))
      rw [List.cons_append] at ihr
      show splitWs (c :: (c' :: (w'' ++ l))) = (c :: c' :: w'') :: splitWs l
      rw [splitWs_cons_cons_nonws c c' (w'' ++ l) hc hc', ihr]

lemma splitWs_joinWords (ws : List (List Char))
    (h : ∀ w ∈ ws, w ≠ [] ∧ ∀ c ∈ w, pyIsSpace c = false) :
    splitWs (joinWords ws) = ws := by
  induction ws with
  | nil => rfl
  | cons w ws' ih =>
    have hw := h w (List.mem_cons_self _ _)
    rcases ws' with _ | ⟨w2, ws''⟩
    · show splitWs (joinWords [w]) = [w]
      have := splitWs_word_append w hw.1 hw.2 [] (by intro c hc; cases hc)
      simpa [joinWords] using this
    · show splitWs (w ++ ' ' :: joinWords (w2 :: ws'')) = w :: w2 :: ws''
      rw [splitWs_word_append w hw.1 hw.2 _
        (by intro c hc; injection hc with h'; subst h'; decide)]
      congr 1
      rw [splitWs_cons_ws ' ' _ (by decide)]
      exact ih (fun u hu => h u (List.mem_cons_of_mem _ hu))

lemma joinWords_head? (w : List Char) (ws : List (List Char)) (hw : w ≠ []) :
    (joinWords (w :: ws)).head? = w.head? := by
  rcases ws with _ | ⟨w2, ws'⟩
  · rfl
  · show (w ++ ' ' :: joinWords (w2 :: ws')).head? = w.head?
    rcases w with _ | ⟨c, cs⟩
    · exact absurd rfl hw
    · rfl

lemma joinWords_ne_nil (w : List Char) (ws : List (List Char)) (hw : w ≠ []) :
    joinWords (w :: ws) ≠ [] := by
  intro h
  rcases List.exists_cons_of_ne_nil hw with ⟨c, cs, hc⟩
  have := joinWords_head? w ws hw
  rw [h, hc] at this
  cases this

lemma joinWords_head_not_ws (ws : List (List Char))
    (h : ∀ w ∈ ws, w ≠ [] ∧ ∀ c ∈ w, pyIsSpace c = false) :
    ∀ c, (joinWords ws).head? = some c → pyIsSpace c = false := by
  intro c hc
  rcases ws with _ | ⟨w, ws'⟩
  · cases hc
  · have hw := h w (List.mem_cons_self _ _)
    rw [joinWords_head? w ws' hw.1] at hc
    exact hw.2 c (List.mem_of_mem_head? (by rw [hc]; exact rfl))

lemma joinWords_getLast_not_ws (ws : List (List Char))
    (h : ∀ w ∈ ws, w ≠ [] ∧ ∀ c ∈ w, pyIsSpace c = false) :
    ∀ c, (joinWords ws).getLast? = some c → pyIsSpace c = false := by
  induction ws with
  | nil => intro c hc; cases hc
  | cons w ws' ih =>
    intro c hc
    have hw := h w (List.mem_cons_self _ _)
    rcases ws' with _ | ⟨w2, ws''⟩
    · exact hw.2 c (List.mem_of_mem_getLast? (by simpa [joinWords] using hc))
    · have hw2 := h w2 (by simp)
      have hne : joinWords (w2 :: ws'') ≠ [] := joinWords_ne_nil w2 ws'' hw2.1
      have hstep : (joinWords (w :: w2 :: ws'')).getLast? =
          (joinWords (w2 :: ws'')).getLast? := by
        show (w ++ ' ' :: joinWords (w2 :: ws'')).getLast? = _
        rw [List.getLast?_append_of_ne_nil w (by simp)]
        rcases List.exists_cons_of_ne_nil hne with ⟨a, as, ha⟩
        rw [ha, List.getLast?_cons_cons]
      rw [hstep] at hc
      exact ih (fun u hu => h u (List.mem_cons_of_mem _ hu)) c hc

lemma noWsRun_append (w l : List Char) (hw : ∀ c ∈ w, pyIsSpace c = false)
    (hl : noWsRun l = true) : noWsRun (w ++ l) = true := by
  induction w with
  | nil => simpa using hl
  | cons c w' ih =>
    have hc : pyIsSpace c = false := hw c (List.mem_cons_self _ _)
    rcases w' with _ | ⟨c', w''⟩
    · rcases l with _ | ⟨a, l'⟩
      · rfl
      · show noWsRun (c :: a :: l') = true
        rw [noWsRun]
        simp [hc, hl]
    · have ihr := ih (fun x hx => hw x (List.mem_cons_of_mem _ hx))
      show noWsRun (c :: (c' :: (w'' ++ l))) = true
      rw [noWsRun]
      have hc' : pyIsSpace c' = false :=
        hw c' (List.mem_cons_of_mem _ (List.mem_cons_self _ _))
      simp only [hc, hc', Bool.false_and, Bool.not_false, Bool.true_and]
      exact ihr

lemma noWsRun_joinWords (ws : List (List Char))
    (h : ∀ w ∈ ws, w ≠ [] ∧ ∀ c ∈ w, pyIsSpace c = false) :
    noWsRun (joinWords ws) = true := by
  induction ws with
  | nil => rfl
  | cons w ws' ih =>
    have hw := h w (List.mem_cons_self _ _)
    rcases ws' with _ | ⟨w2, ws''⟩
    · show noWsRun (joinWords [w]) = true
      have := noWsRun_append w [] hw.2 rfl
      simpa using this
    · have hw2 := h w2 (by simp)
      have hne : joinWords (w2 :: ws'') ≠ [] := joinWords_ne_nil w2 ws'' hw2.1
      rcases List.exists_cons_of_ne_nil hne with ⟨a, as, ha⟩
      have hahd : pyIsSpace a = false := by
        apply joinWords_head_not_ws (w2 :: ws'')
          (fun u hu => h u (List.mem_cons_of_mem _ hu))
        rw [ha]
        rfl
      have htail : noWsRun (joinWords (w2 :: ws'')) = true :=
        ih (fun u hu => h u (List.mem_cons_of_mem _ hu))
      show noWsRun (w ++ ' ' :: joinWords (w2 :: ws'')) = true
      apply noWsRun_append w _ hw.2
      rw [ha]
      rw [noWsRun]
      rw [ha] at htail
      simp [hahd, htail]

lemma stripL_eq_self (l : List Char)
    (h1 : ∀ c, l.head? = some c → pyIsSpace c = false)
    (h2 : ∀ c, l.getLast? = some c → pyIsSpace c = false) :
    stripL l = l := by
  unfold stripL
  have hdw : l.dropWhile pyIsSpace = l := by
    rcases l with _ | ⟨c, cs⟩
    · rfl
    · rw [List.dropWhile_cons, if_neg (by simp [h1 c rfl])]
  rw [hdw]
  rw [List.rdropWhile_eq_self_iff]
  intro hl
  have := h2 (l.getLast hl) (List.getLast?_eq_getLast_of_ne_nil hl)
  simp [this]

lemma stripL_noEdgeWs (l : List Char) : noEdgeWs (stripL l) := by
  constructor
  · intro c hc
    unfold stripL at hc
    rcases hh : (l.dropWhile pyIsSpace).rdropWhile pyIsSpace with _ | ⟨a, rest⟩
    · rw [hh] at hc; cases hc
    · rw [hh] at hc
      injection hc with hc'
      obtain ⟨t, ht⟩ := List.rdropWhile_prefix pyIsSpace (l.dropWhile pyIsSpace)
      rw [hh] at ht
      exact hc' ▸ dropWhile_head_not pyIsSpace l a (rest ++ t)
        (by rw [← ht]; simp)
  · intro c hc
    unfold stripL at hc
    have hne : (l.dropWhile pyIsSpace).rdropWhile pyIsSpace ≠ [] := by
      intro h
      rw [h] at hc
      cases hc
    have hlast := List.rdropWhile_last_not (p := pyIsSpace)
      (l := l.dropWhile pyIsSpace) hne
    have heq : ((l.dropWhile pyIsSpace).rdropWhile pyIsSpace).getLast hne = c := by
      have := List.getLast?_eq_getLast_of_ne_nil hne
      rw [hc] at this
      injection this with h'
      exact h'.symm
    rw [heq] at hlast
    simp at hlast
    exact hlast

lemma removeDeny_eq_self (l : List Char)
    (h : ∀ c ∈ l, denyChars.contains c = false) : removeDeny l = l := by
  unfold removeDeny
  apply List.filter_eq_self.mpr
  intro a ha
  show (!denyChars.contains a) = true
  rw [h a ha]
  rfl

lemma mem_joinWords (ws : List (List Char)) (c : Char)
    (hc : c ∈ joinWords ws) : (∃ w ∈ ws, c ∈ w) ∨ c = ' ' := by
  induction ws with
  | nil => cases hc
  | cons w ws' ih =>
    rcases ws' with _ | ⟨w2, ws''⟩
    · exact Or.inl ⟨w, List.mem_cons_self _ _, hc⟩
    · rcases List.mem_append.mp hc with h1 | h2
      · exact Or.inl ⟨w, List.mem_cons_self _ _, h1⟩
      · rcases List.mem_cons.mp h2 with h3 | h4
        · exact Or.inr h3
        · rcases ih h4 with ⟨u, hu, hcu⟩ | h5
          · exact Or.inl ⟨u, List.mem_cons_of_mem _ hu, hcu⟩
          · exact Or.inr h5

lemma cleanTextL_denyFree (l : List Char)
    (h : ∀ c ∈ l, denyChars.contains c = false) :
    cleanTextL l = joinWords (splitWs l) := by
  have hok := splitWs_wordOk l
  have hjchars : ∀ c ∈ joinWords (splitWs l), denyChars.contains c = false := by
    intro c hc
    rcases mem_joinWords _ c hc with ⟨w, hw, hcw⟩ | hsp
    · exact h c (splitWs_mem_subset l w hw c hcw)
    · subst hsp
      decide
  unfold cleanTextL
  rw [removeDeny_eq_self _ hjchars]
  exact stripL_eq_self _ (joinWords_head_not_ws _ hok)
    (joinWords_getLast_not_ws _ hok)

lemma cleanTextL_idem (l : List Char)
    (h : ∀ c ∈ l, denyChars.contains c = false) :
    cleanTextL (cleanTextL l) = cleanTextL l := by
  have hok := splitWs_wordOk l
  rw [cleanTextL_denyFree l h]
  have hjchars : ∀ c ∈ joinWords (splitWs l), denyChars.contains c = false := by
    intro c hc
    rcases mem_joinWords _ c hc with ⟨w, hw, hcw⟩ | hsp
    · exact h c (splitWs_mem_subset l w hw c hcw)
    · subst hsp
      decide
  rw [cleanTextL_denyFree _ hjchars, splitWs_joinWords _ hok]

/-- **C10 counterexample.** With the denylisted character `ð` standing
alone between two words, `clean_text` first collapses whitespace and only
then deletes `ð`, leaving the double space `"a  b"`: the result has a
whitespace run and a second application changes it again, so `clean_text`
is neither idempotent nor run-free in general. -/
theorem clean_text_not_idempotent_cex :
    clean_text "a ð b" = "a  b" ∧
    clean_text (clean_text "a ð b") ≠ clean_text "a ð b" ∧
    noWsRun (clean_text "a ð b").data = false := by
  exact ⟨by decide, by decide, by decide⟩

/-- **C10 (amended).** `clean_text` always strips leading/trailing
whitespace; on inputs free of the regex-denylist characters it is
idempotent and its output has no run of two or more whitespace
characters (a denylisted character deleted *after* whitespace collapsing
can leave a double space, so the unconditional claim fails); and
`add_text_element` renders exactly `clean_text` of its text argument. -/
theorem clean_text_normal_form :
    (∀ s : String, noEdgeWs (clean_text s).data) ∧
    (∀ s : String, (∀ c ∈ s.data, denyChars.contains c = false) →
      clean_text (clean_text s) = clean_text s ∧
      noWsRun (clean_text s).data = true) ∧
    (∀ (text : String) (left top width height : ℚ) (fontSize : ℕ)
        (bold : Bool) (color : Option String) (align : Align) (e : TextElem),
      add_text_element text left top width height fontSize bold color align =
        some e → e.text = clean_text text) := by
  refine ⟨fun s => stripL_noEdgeWs _, fun s hs => ⟨?_, ?_⟩, ?_⟩
  · show (⟨cleanTextL (clean_text s).data⟩ : String) = ⟨cleanTextL s.data⟩
    exact congrArg String.mk (cleanTextL_idem s.data hs)
  · show noWsRun (cleanTextL s.data) = true
    rw [cleanTextL_denyFree s.data hs]
    exact noWsRun_joinWords _ (splitWs_wordOk s.data)
  · intro text left top width height fontSize bold color align e he
    unfold add_text_element at he
    split_ifs at he
    injection he with h'
    exact congrArg TextElem.text h'.symm

/-- Witness for C10: a denylist-free string with an internal
whitespace run. -/
theorem clean_text_normal_form_witness :
    clean_text (clean_text "x  y") = clean_text "x  y" ∧
    noWsRun (clean_text "x  y").data = true :=
  clean_text_normal_form.2.1 "x  y" (by decide)

/-! ## C4: the class-imbalance extraction chain defaults -/

/-- **C4.** In the class-imbalance template's "The Numbers" chain, when
the structured lookup (`bg-light` list items mentioning Diabetes) and the
keyword search (list items containing `65%` / `35%`) both come up empty,
the extracted list equals the literal hardcoded default, which is
non-empty. -/
theorem numbersDetails_default_of_misses (soup : Node)
    (h1 : bgLightItems soup = []) (h2 : percentItems soup = []) :
    numbersDetails soup = defaultNumbers ∧ defaultNumbers ≠ [] := by
  refine ⟨?_, by decide⟩
  simp [numbersDetails, h1, h2]

/-- Witness for C4 at a section with no matching content at all. -/
theorem numbersDetails_default_witness :
    numbersDetails c4WitSoup = defaultNumbers ∧ defaultNumbers ≠ [] :=
  numbersDetails_default_of_misses c4WitSoup (by decide) (by decide)

/-! ## C8: classification and layout are deterministic -/

/-- **C8.** The classifier equals a first-match scan of the explicit
ordered rule table (no unordered traversal), and both classification and
the modelled layouts are functions of the slide record's observable
fields alone: two runs over equal inputs with the same asset-directory
state (`fs`, `meta`) select the same template and produce identical
element sequences. -/
theorem pipeline_deterministic :
    (∀ sd : SlideData, classifySlide sd = firstMatch classifyRules sd) ∧
    (∀ s t : SlideData, s.title = t.title → s.soup = t.soup →
      s.background_color = t.background_color → s.images = t.images →
      classifySlide s = classifySlide t ∧
      ∀ (fs : String → Bool) (meta : String → Option ImgMeta),
        modeledLayout fs meta s = modeledLayout fs meta t) := by
  constructor
  · intro sd
    rfl
  · intro s t h1 h2 h3 h4
    obtain ⟨st, ss, sb, si⟩ := s
    obtain ⟨tt, ts, tb, ti⟩ := t
    dsimp only at h1 h2 h3 h4
    subst h1
    subst h2
    subst h3
    subst h4
    exact ⟨rfl, fun _ _ => rfl⟩

/-- Witness for C8 at a concrete dashboard slide. -/
theorem pipeline_deterministic_witness :
    classifySlide c8WitSlide = classifySlide c8WitSlide ∧
    ∀ (fs : String → Bool) (meta : String → Option ImgMeta),
      modeledLayout fs meta c8WitSlide = modeledLayout fs meta c8WitSlide :=
  pipeline_deterministic.2 c8WitSlide c8WitSlide rfl rfl rfl rfl

/-! ## C5: substring machinery for the hook template -/

lemma startsWithL_iff (pat l : List Char) :
    startsWithL l pat = true ↔ ∃ v, l = pat ++ v := by
  induction pat generalizing l with
  | nil =>
    constructor
    · intro _
      exact ⟨l, rfl⟩
    · intro _
      cases l <;> rfl
  | cons p ps ih =>
    cases l with
    | nil =>
      constructor
      · intro h
        cases h
      · rintro ⟨v, hv⟩
        simp at hv
    | cons c cs =>
      constructor
      · intro h
        simp only [startsWithL, Bool.and_eq_true, beq_iff_eq] at h
        obtain ⟨hc, hs⟩ := h
        subst hc
        obtain ⟨v, hv⟩ := (ih cs).mp hs
        exact ⟨v, by rw [hv]; rfl⟩
      · rintro ⟨v, hv⟩
        injection hv with h1 h2
        subst h1
        simp only [startsWithL, Bool.and_eq_true, beq_self_eq_true, true_and]
        exact (ih cs).mpr ⟨v, h2⟩

lemma containsL_iff (pat l : List Char) :
    containsL l pat = true ↔ ∃ u v, l = u ++ pat ++ v := by
  induction l with
  | nil =>
    constructor
    · intro h
      simp only [containsL, List.isEmpty_iff] at h
      subst h
      exact ⟨[], [], rfl⟩
    · rintro ⟨u, v, huv⟩
      have h0 : u = [] ∧ pat ++ v = [] := by
        simpa using huv.symm
      have h1 : pat = [] ∧ v = [] := by
        simpa using h0.2
      rw [h1.1]
      rfl
  | cons c cs ih =>
    constructor
    · intro h
      simp only [containsL, Bool.or_eq_true] at h
      rcases h with h | h
      · obtain ⟨v, hv⟩ := (startsWithL_iff pat _).mp h
        exact ⟨[], v, by simpa using hv⟩
      · obtain ⟨u, v, huv⟩ := ih.mp h
        exact ⟨c :: u, v, by rw [huv]; rfl⟩
    · rintro ⟨u, v, huv⟩
      simp only [containsL, Bool.or_eq_true]
      rcases u with _ | ⟨a, u'⟩
      · left
        apply (startsWithL_iff pat _).mpr
        exact ⟨v, by simpa using huv⟩
      · right
        injection huv with h1 h2
        exact ih.mpr ⟨u', v, h2⟩

lemma containsL_of_startsWith (l pat : List Char)
    (h : startsWithL l pat = true) : containsL l pat = true := by
  obtain ⟨v, hv⟩ := (startsWithL_iff pat l).mp h
  exact (containsL_iff pat l).mpr ⟨[], v, by simpa using hv⟩

lemma containsL_append_left (u z pat : List Char)
    (h : containsL u pat = true) : containsL (u ++ z) pat = true := by
  obtain ⟨a, b, hab⟩ := (containsL_iff pat u).mp h
  exact (containsL_iff pat _).mpr ⟨a, b ++ z, by rw [hab]; simp⟩

lemma containsL_append_right (u z pat : List Char)
    (h : containsL z pat = true) : containsL (u ++ z) pat = true := by
  obtain ⟨a, b, hab⟩ := (containsL_iff pat z).mp h
  exact (containsL_iff pat _).mpr ⟨u ++ a, b, by rw [hab]; simp⟩

lemma containsL_cons (c : Char) (cs pat : List Char)
    (h : containsL cs pat = true) : containsL (c :: cs) pat = true := by
  have := containsL_append_right [c] cs pat h
  simpa using this

lemma containsL_map (f : Char → Char) (l pat : List Char)
    (h : containsL l pat = true) :
    containsL (l.map f) (pat.map f) = true := by
  obtain ⟨u, v, huv⟩ := (containsL_iff pat l).mp h
  exact (containsL_iff _ _).mpr ⟨u.map f, v.map f, by rw [huv]; simp⟩

lemma containsL_filter (q : Char → Bool) (l pat : List Char)
    (hpat : ∀ c ∈ pat, q c = true) (h : containsL l pat = true) :
    containsL (l.filter q) pat = true := by
  obtain ⟨u, v, huv⟩ := (containsL_iff pat l).mp h
  apply (containsL_iff pat _).mpr
  refine ⟨u.filter q, v.filter q, ?_⟩
  rw [huv]
  simp [List.filter_append, List.filter_eq_self.mpr hpat]

lemma containsL_dropWhile (q : Char → Bool) (l : List Char) (pc : Char)
    (pcs : List Char) (hq : q pc = false)
    (h : containsL l (pc :: pcs) = true) :
    containsL (l.dropWhile q) (pc :: pcs) = true := by
  obtain ⟨u, v, huv⟩ := (containsL_iff _ l).mp h
  subst huv
  clear h
  induction u with
  | nil =>
    simp only [List.nil_append, List.cons_append, List.dropWhile_cons,
      if_neg (by simp [hq] : ¬(q pc = true))]
    exact (containsL_iff _ _).mpr ⟨[], v, by simp⟩
  | cons a u' ih =>
    simp only [List.cons_append, List.dropWhile_cons]
    by_cases hqa : q a = true
    · rw [if_pos hqa]
      simpa using ih
    · rw [if_neg hqa]
      exact (containsL_iff _ _).mpr ⟨a :: u', v, by simp⟩

lemma containsL_reverse_of (l pat : List Char) (h : containsL l pat = true) :
    containsL l.reverse pat.reverse = true := by
  obtain ⟨u, v, huv⟩ := (containsL_iff pat l).mp h
  apply (containsL_iff _ _).mpr
  exact ⟨v.reverse, u.reverse, by rw [huv]; simp⟩

lemma containsL_of_reverse (l pat : List Char)
    (h : containsL l.reverse pat.reverse = true) : containsL l pat = true := by
  have := containsL_reverse_of _ _ h
  simpa using this

lemma containsL_rdropWhile (q : Char → Bool) (l pat : List Char) (pl : Char)
    (pls : List Char) (hrev : pat.reverse = pl :: pls) (hq : q pl = false)
    (h : containsL l pat = true) :
    containsL (l.rdropWhile q) pat = true := by
  have h1 : containsL l.reverse (pl :: pls) = true := by
    rw [← hrev]
    exact containsL_reverse_of _ _ h
  have h2 := containsL_dropWhile q l.reverse pl pls hq h1
  apply containsL_of_reverse
  rw [hrev]
  have hx : (l.rdropWhile q).reverse = l.reverse.dropWhile q := by
    simp [List.rdropWhile]
  rw [hx]
  exact h2

lemma containsL_stripL (l pat : List Char) (pc : Char) (pcs : List Char)
    (hpat : pat = pc :: pcs) (hok : ∀ c ∈ pat, pyIsSpace c = false)
    (h : containsL l pat = true) : containsL (stripL l) pat = true := by
  unfold stripL
  have h1 : containsL (l.dropWhile pyIsSpace) pat = true := by
    subst hpat
    exact containsL_dropWhile pyIsSpace l pc pcs
      (hok pc (List.mem_cons_self _ _)) h
  rcases hrev : pat.reverse with _ | ⟨pl, pls⟩
  · subst hpat
    simp at hrev
  · have hpl : pyIsSpace pl = false := by
      apply hok pl
      have : pl ∈ pat.reverse := by
        rw [hrev]
        exact List.mem_cons_self _ _
      simpa using this
    exact containsL_rdropWhile pyIsSpace _ pat pl pls hrev hpl h1

lemma splitWs_head_word (c : Char) (cs : List Char) (hc : pyIsSpace c = false) :
    ∃ rest, splitWs (c :: cs) =
      (c :: cs.takeWhile (fun x => !pyIsSpace x)) :: rest := by
  induction cs generalizing c with
  | nil =>
    exact ⟨[], by rw [splitWs_single c hc]; rfl⟩
  | cons c2 cs' ih =>
    cases hc2 : pyIsSpace c2 with
    | true =>
      refine ⟨splitWs (c2 :: cs'), ?_⟩
      rw [splitWs_cons_cons_ws c c2 cs' hc hc2]
      simp [List.takeWhile_cons, hc2]
    | false =>
      obtain ⟨rest, hrest⟩ := ih c2 hc2
      refine ⟨rest, ?_⟩
      rw [splitWs_cons_cons_nonws c c2 cs' hc hc2, hrest]
      simp [List.takeWhile_cons, hc2]

lemma startsWith_takeWhile (pat : List Char)
    (hok : ∀ c ∈ pat, pyIsSpace c = false) :
    ∀ l, startsWithL l pat = true →
      startsWithL (l.takeWhile (fun x => !pyIsSpace x)) pat = true := by
  induction pat with
  | nil =>
    intro l _
    cases l.takeWhile (fun x => !pyIsSpace x) <;> rfl
  | cons p ps ih =>
    intro l h
    cases l with
    | nil => cases h
    | cons c cs =>
      simp only [startsWithL, Bool.and_eq_true, beq_iff_eq] at h
      obtain ⟨hcp, hs⟩ := h
      subst hcp
      have hp : pyIsSpace c = false := hok c (List.mem_cons_self _ _)
      rw [List.takeWhile_cons, if_pos (by simp [hp])]
      simp only [startsWithL, Bool.and_eq_true, beq_self_eq_true, true_and]
      exact ih (fun x hx => hok x (List.mem_cons_of_mem _ hx)) cs hs

lemma containsL_splitWs (l pat : List Char) (pc : Char) (pcs : List Char)
    (hpat : pat = pc :: pcs) (hws : ∀ c ∈ pat, pyIsSpace c = false)
    (h : containsL l pat = true) :
    ∃ w ∈ splitWs l, containsL w pat = true := by
  obtain ⟨u, v, huv⟩ := (containsL_iff pat l).mp h
  subst huv
  clear h
  induction u with
  | nil =>
    subst hpat
    have hpc : pyIsSpace pc = false := hws pc (List.mem_cons_self _ _)
    obtain ⟨rest, hrest⟩ := splitWs_head_word pc (pcs ++ v) hpc
    refine ⟨pc :: (pcs ++ v).takeWhile (fun x => !pyIsSpace x), ?_, ?_⟩
    · rw [List.nil_append, List.cons_append, hrest]
      exact List.mem_cons_self _ _
    · apply containsL_of_startsWith
      simp only [startsWithL, Bool.and_eq_true, beq_self_eq_true, true_and]
      apply startsWith_takeWhile pcs
        (fun x hx => hws x (List.mem_cons_of_mem _ hx))
      exact (startsWithL_iff pcs _).mpr ⟨v, rfl⟩
  | cons a u' ih =>
    simp only [List.cons_append]
    cases ha : pyIsSpace a with
    | true =>
      rw [splitWs_cons_ws _ _ ha]
      simpa using ih
    | false =>
      have hne : u' ++ pat ++ v ≠ [] := by
        subst hpat
        simp
      rcases hr : u' ++ pat ++ v with _ | ⟨r, rs⟩
      · exact absurd hr hne
      · obtain ⟨w, hw, hcw⟩ := ih
        rw [hr] at hw
        cases hrw : pyIsSpace r with
        | true =>
          rw [splitWs_cons_cons_ws a r rs ha hrw]
          exact ⟨w, List.mem_cons_of_mem _ hw, hcw⟩
        | false =>
          rw [splitWs_cons_cons_nonws a r rs ha hrw]
          rcases hsw : splitWs (r :: rs) with _ | ⟨w', ws'⟩
          · rw [hsw] at hw
            cases hw
          · rw [hsw] at hw
            rcases List.mem_cons.mp hw with h1 | h2
            · subst h1
              exact ⟨a :: w, List.mem_cons_self _ _,
                containsL_cons _ _ _ hcw⟩
            · exact ⟨w, List.mem_cons_of_mem _ h2, hcw⟩

lemma containsL_joinWords_of_mem (ws : List (List Char)) (w pat : List Char)
    (hw : w ∈ ws) (h : containsL w pat = true) :
    containsL (joinWords ws) pat = true := by
  induction ws with
  | nil => cases hw
  | cons w1 ws' ih =>
    rcases List.mem_cons.mp hw with h1 | h2
    · subst h1
      rcases ws' with _ | ⟨w2, ws''⟩
      · exact h
      · exact containsL_append_left _ _ _ h
    · rcases ws' with _ | ⟨w2, ws''⟩
      · cases h2
      · apply containsL_append_right
        apply containsL_cons
        exact ih h2

lemma containsL_cleanTextL (l pat : List Char) (pc : Char) (pcs : List Char)
    (hpat : pat = pc :: pcs)
    (hws : ∀ c ∈ pat, pyIsSpace c = false)
    (hdeny : ∀ c ∈ pat, denyChars.contains c = false)
    (h : containsL l pat = true) :
    containsL (cleanTextL l) pat = true := by
  obtain ⟨w, hwmem, hwcont⟩ := containsL_splitWs l pat pc pcs hpat hws h
  have hjoin := containsL_joinWords_of_mem _ _ _ hwmem hwcont
  have hrd : containsL (removeDeny (joinWords (splitWs l))) pat = true := by
    unfold removeDeny
    refine containsL_filter _ _ _ (fun c hc => ?_) hjoin
    show (!denyChars.contains c) = true
    rw [hdeny c hc]
    rfl
  unfold cleanTextL
  exact containsL_stripL _ pat pc pcs hpat hws hrd

lemma hookParas_worldwide (ps : List Node) (y : ℚ) (p : Node) (hp : p ∈ ps)
    (hne : clean_text p.getText ≠ "")
    (hnosrc : strContains (clean_text p.getText) "Source" = false)
    (hww : strContains (clean_text p.getText) "worldwide" = true) :
    ∃ e : TextElem, PElem.textbox e ∈ (hookParas ps y).1 ∧ e.fontSize = 14 ∧
      e.align = Align.center ∧ strContains e.text "worldwide" = true := by
  induction ps generalizing y with
  | nil => cases hp
  | cons q rest ih =>
    rcases List.mem_cons.mp hp with h1 | h2
    · subst h1
      have htrig : (strContains (clean_text p.getText) "People worldwide" ||
          strContains (pyLower (clean_text p.getText)) "worldwide") = true := by
        have hB : strContains (pyLower (clean_text p.getText)) "worldwide" =
            true := by
          show containsL ((clean_text p.getText).data.map Char.toLower)
            "worldwide".data = true
          have hmap := containsL_map Char.toLower _ _ hww
          have hpat : "worldwide".data.map Char.toLower = "worldwide".data := by
            decide
          rw [hpat] at hmap
          exact hmap
        rw [hB, Bool.or_true]
      have hstrip : ¬(stripL (clean_text p.getText).data = []) := by
        intro h0
        apply hne
        have hedge := stripL_noEdgeWs
          (removeDeny (joinWords (splitWs p.getText.data)))
        have hself : stripL (clean_text p.getText).data =
            (clean_text p.getText).data :=
          stripL_eq_self _ hedge.1 hedge.2
        have hdata : (clean_text p.getText).data = [] := by
          rw [← hself]
          exact h0
        exact congrArg String.mk hdata
      simp only [hookParas]
      rw [if_neg hne, if_neg (by simp [hnosrc]), if_pos htrig]
      refine ⟨⟨clean_text (clean_text p.getText), 1, y, 8, 0.4, 14, false,
        some "#334155", Align.center⟩, ?_, rfl, rfl, ?_⟩
      · show PElem.textbox _ ∈
          (optText (add_text_element (clean_text p.getText) 1 y 8 0.4 14 false
            (some "#334155") Align.center) ++ (hookParas rest (y + 0.6)).1)
        unfold add_text_element
        rw [if_neg hstrip]
        exact List.mem_append_left _ (List.mem_cons_self _ _)
      · show containsL (cleanTextL (clean_text p.getText).data)
          "worldwide".data = true
        exact containsL_cleanTextL _ _ 'w' "orldwide".data rfl
          (by decide) (by decide) hww
    · simp only [hookParas]
      by_cases ht0 : clean_text q.getText = ""
      · rw [if_pos ht0]
        exact ih y h2
      rw [if_neg ht0]
      by_cases hsrc : strContains (clean_text q.getText) "Source" = true
      · rw [if_pos hsrc]
        exact ih y h2
      rw [if_neg hsrc]
      by_cases hw1 : (strContains (clean_text q.getText) "People worldwide" ||
          strContains (pyLower (clean_text q.getText)) "worldwide") = true
      · rw [if_pos hw1]
        obtain ⟨e, he, hf⟩ := ih (y + 0.6) h2
        exact ⟨e, List.mem_append_right _ he, hf⟩
      rw [if_neg hw1]
      by_cases hw2 : (strContains (pyLower (clean_text q.getText)) "problem" &&
          strContains (clean_text q.getText) "But") = true
      · rw [if_pos hw2]
        obtain ⟨e, he, hf⟩ := ih (y + 0.5) h2
        exact ⟨e, List.mem_append_right _ he, hf⟩
      rw [if_neg hw2]
      by_cases hw3 : (strContains (pyLower (clean_text q.getText)) "undetected" ||
          strContains (pyLower (clean_text q.getText)) "complications") = true
      · rw [if_pos hw3]
        obtain ⟨e, he, hf⟩ := ih (y + 0.5) h2
        exact ⟨e, List.mem_append_right _ he, hf⟩
      rw [if_neg hw3]
      exact ih y h2

/-- **C5 counterexample.** A section whose heading is an `h2` containing
"537 Million" and whose content has a "worldwide" paragraph: the title
and the hook classification match the claim's hypothesis, yet the branch
looks only for an `h1`, so no 80 pt element is emitted at all. -/
theorem hook_no_h1_cex :
    strContains (parseTitle hookCexSoup) "537 Million" = true ∧
    (∃ p ∈ hookCexSoup.findAllTag "p",
      strContains (clean_text p.getText) "worldwide" = true) ∧
    predHook ⟨parseTitle hookCexSoup, hookCexSoup, none, []⟩ = true ∧
    ∀ e : TextElem, PElem.textbox e ∈ hookElems hookCexSoup →
      e.fontSize ≠ 80 := by
  refine ⟨by decide,
    ⟨Node.elem "p" [] "" []
        (nodes [Node.text "People worldwide live with diabetes"]),
      by decide, by decide⟩,
    by decide, ?_⟩
  intro e he
  have hX : hookElems hookCexSoup =
      [PElem.textbox ⟨clean_text "People worldwide live with diabetes", 1,
        1.2, 8, 0.4, 14, false, some "#334155", Align.center⟩] := rfl
  rw [hX] at he
  have he' := List.mem_singleton.mp he
  injection he' with he''
  rw [he'']
  decide

/-- **C5 (amended).** For every hook-slide section that has an `h1`
heading whose cleaned text contains "537" (the branch inspects only
`h1`, so an `h2` title does not qualify) and a paragraph whose cleaned
text contains "worldwide", is non-empty and does not contain "Source"
(such paragraphs are skipped), the hook template emits a center-aligned
80 pt bold text element with the literal text "537 Million", and a
separate center-aligned 14 pt element whose text contains "worldwide". -/
theorem hook_emits_number_and_worldwide (soup : Node) (h1n : Node)
    (hh1 : soup.findTag? "h1" = some h1n)
    (h537 : strContains (clean_text h1n.getText) "537" = true)
    (p : Node) (hp : p ∈ soup.findAllTag "p")
    (hne : clean_text p.getText ≠ "")
    (hnosrc : strContains (clean_text p.getText) "Source" = false)
    (hww : strContains (clean_text p.getText) "worldwide" = true) :
    (∃ e : TextElem, PElem.textbox e ∈ hookElems soup ∧
      e.text = "537 Million" ∧ e.fontSize = 80 ∧ e.bold = true ∧
      e.align = Align.center) ∧
    (∃ e : TextElem, PElem.textbox e ∈ hookElems soup ∧ e.fontSize = 14 ∧
      e.align = Align.center ∧ strContains e.text "worldwide" = true) := by
  constructor
  · have hbig : (hookBig soup).1 =
        [PElem.textbox ⟨clean_text "537 Million", 1, 1.8, 8, 1.5, 80, true,
          some "#ef4444", Align.center⟩] := by
      unfold hookBig
      rw [hh1]
      dsimp only
      rw [if_pos h537]
      rfl
    refine ⟨⟨clean_text "537 Million", 1, 1.8, 8, 1.5, 80, true,
      some "#ef4444", Align.center⟩, ?_, by decide, rfl, rfl, rfl⟩
    show PElem.textbox _ ∈ (hookBig soup).1 ++ _ ++ _
    rw [hbig]
    exact List.mem_append_left _
      (List.mem_append_left _ (List.mem_cons_self _ _))
  · obtain ⟨e, he, h14, hal, hcw⟩ := hookParas_worldwide
      (soup.findAllTag "p") (hookBig soup).2 p hp hne hnosrc hww
    exact ⟨e, List.mem_append_left _ (List.mem_append_right _ he),
      h14, hal, hcw⟩

/-- Witness for C5 at a section with a genuine `h1` and a worldwide
paragraph. -/
theorem hook_emits_witness :
    (∃ e : TextElem, PElem.textbox e ∈ hookElems hookWitSoup ∧
      e.text = "537 Million" ∧ e.fontSize = 80 ∧ e.bold = true ∧
      e.align = Align.center) ∧
    (∃ e : TextElem, PElem.textbox e ∈ hookElems hookWitSoup ∧
      e.fontSize = 14 ∧ e.align = Align.center ∧
      strContains e.text "worldwide" = true) :=
  hook_emits_number_and_worldwide hookWitSoup
    (Node.elem "h1" [] "" [] (nodes [Node.text "537 Million"]))
    (by decide) (by decide)
    (Node.elem "p" [] "" []
      (nodes [Node.text "People worldwide live with diabetes"]))
    (by decide) (by decide) (by decide) (by decide)

/-! ## C6: the dashboard template's default feature boxes -/

lemma dashCards_empty (soup : Node) (h1 : soup.findAllClass "card" = [])
    (h2 : soup.findClass? "two-col" = none) : dashCards soup = [] := by
  simp [dashCards, h1, h2]

lemma optText_some (txt : String) (L T W H : ℚ) (fs : ℕ) (b : Bool)
    (c : Option String) (a : Align) (h : ¬(stripL txt.data = [])) :
    optText (add_text_element txt L T W H fs b c a) =
      [PElem.textbox ⟨clean_text txt, L, T, W, H, fs, b, c, a⟩] := by
  unfold optText add_text_element
  rw [if_neg h]

lemma drawDashItems_cons (it : String) (rest : List String) (y limit : ℚ)
    (h : y < limit) :
    drawDashItems (it :: rest) y limit =
      (optText (add_text_element (bulletize it) 5.65 y 3.7 0.3 8 false
          (some "#334155") Align.left) ++
        (drawDashItems rest (y + 0.32) limit).1,
       (drawDashItems rest (y + 0.32) limit).2) := by
  simp only [drawDashItems]
  rw [if_pos h]

lemma drawDashItems_nil (y limit : ℚ) : drawDashItems [] y limit = ([], y) :=
  rfl

lemma dashBoxes_no_cards (soup : Node) (h1 : soup.findAllClass "card" = [])
    (h2 : soup.findClass? "two-col" = none) :
    dashBoxes soup = dashDefaultBoxElems := by
  have hc : dashCards soup = [] := dashCards_empty soup h1 h2
  simp only [dashBoxes, hc]
  rw [show (([] : List Node).head?) = none from rfl,
    show (([] : List Node).get? 1) = none from rfl]
  rw [show cardHeaderItems (none : Option Node) "Interactive Features"
      featRep1 featRep2 defaultFeatures =
      ("Interactive Features", defaultFeatures) from rfl]
  rw [show cardHeaderItems (none : Option Node) "What You Can Explore"
      expRep1 expRep2 defaultExplore =
      ("What You Can Explore", defaultExplore) from rfl]
  dsimp only
  rw [show defaultFeatures.take 4 = defaultFeatures from rfl,
    show defaultExplore.take 4 = defaultExplore from rfl]
  simp only [defaultFeatures, defaultExplore]
  rw [drawDashItems_cons _ _ _ _ (show (1.45 : ℚ) < 3 by norm_num)]
  rw [drawDashItems_cons _ _ _ _ (show (1.45 : ℚ) + 0.32 < 3 by norm_num)]
  rw [drawDashItems_cons _ _ _ _
    (show (1.45 : ℚ) + 0.32 + 0.32 < 3 by norm_num)]
  rw [drawDashItems_cons _ _ _ _
    (show (1.45 : ℚ) + 0.32 + 0.32 + 0.32 < 3 by norm_num)]
  rw [drawDashItems_nil]
  dsimp only
  rw [drawDashItems_cons _ _ _ _
    (show (1.45 : ℚ) + 0.32 + 0.32 + 0.32 + 0.32 + 0.1 + 0.35 < 5.5 by
      norm_num)]
  rw [drawDashItems_cons _ _ _ _
    (show (1.45 : ℚ) + 0.32 + 0.32 + 0.32 + 0.32 + 0.1 + 0.35 + 0.32 < 5.5 by
      norm_num)]
  rw [drawDashItems_cons _ _ _ _
    (show (1.45 : ℚ) + 0.32 + 0.32 + 0.32 + 0.32 + 0.1 + 0.35 + 0.32 + 0.32 <
        5.5 by norm_num)]
  rw [drawDashItems_cons _ _ _ _
    (show (1.45 : ℚ) + 0.32 + 0.32 + 0.32 + 0.32 + 0.1 + 0.35 + 0.32 + 0.32 +
        0.32 < 5.5 by norm_num)]
  rw [drawDashItems_nil]
  dsimp only
  repeat rw [optText_some _ _ _ _ _ _ _ _ _ (by decide)]
  simp only [dashDefaultBoxElems, List.cons_append, List.nil_append,
    List.cons.injEq, PElem.textbox.injEq, TextElem.mk.injEq, and_true]
  norm_num
  all_goals decide

/-- **C6.** For every dashboard-classified section (title contains
"Interactive Dashboard") whose markup has no feature cards (no `card`
class and no `two-col` wrapper), the template output still contains, in
order, the "Interactive Features" header followed by its four literal
default bullets and the "What You Can Explore" header followed by its
four literal default bullets — exactly the `dashDefaultBoxElems` block. -/
theorem dashboard_default_boxes (fs : String → Bool)
    (meta : String → Option ImgMeta) (title : String) (soup : Node)
    (images : List ImageRef)
    (htitle : strContains title "Interactive Dashboard" = true)
    (hcards : soup.findAllClass "card" = [])
    (htc : soup.findClass? "two-col" = none) :
    ∃ pre post, dashboardElems fs meta title soup images =
      pre ++ dashDefaultBoxElems ++ post := by
  refine ⟨dashTitle title ++ dashSubtitle soup ++ dashImage fs meta soup images,
    dashDemo soup, ?_⟩
  unfold dashboardElems
  rw [dashBoxes_no_cards soup hcards htc]

/-- Witness for C6 at a concrete card-free dashboard section. -/
theorem dashboard_default_boxes_witness :
    ∃ pre post, dashboardElems (fun _ => false) (fun _ => none)
      "Interactive Dashboard: See It Live" dashWitSoup [] =
      pre ++ dashDefaultBoxElems ++ post :=
  dashboard_default_boxes (fun _ => false) (fun _ => none)
    "Interactive Dashboard: See It Live" dashWitSoup []
    (by decide) (by decide) (by decide)

end PPT